import Mathlib

/-!
Verification of the full-page capture subsystem of `screenshot_stitch.py`
(`_capture_full_page_wheel`, `_scroll_to_target`, and the injected JS helpers).

The embedding mirrors the Python source:
* numeric conversions (`int(...)`, `round(...)`, `//`) are modelled exactly
  (`pyInt` truncates toward zero, `pyRound` rounds half to even as Python's
  `round`, `Int.fdiv` is Python's floor division); Python floats are modelled
  by exact rationals;
* the browser page is an abstract state machine `Dyn` whose transition
  functions answer each Playwright round-trip (`evaluate`, `mouse.wheel`,
  `wait_for_timeout`, `screenshot`, ...), and whose `fails` schedule says
  which round-trips raise;
* the capture is a state-passing program over `CapSt`, which tracks the
  DOM stabilization flags and the local lists (`tiles`, `tile_positions`)
  of the Python function; errors preserve the state so that failing runs
  can be examined.
-/

/-- Python `int(q)` on a float/number: truncation toward zero. -/
def pyInt (q : ℚ) : ℤ :=
  if q < 0 then ⌈q⌉ else ⌊q⌋

/-- Python `round(q)` on a float: round half to even (banker's rounding),
modelled on exact rationals. -/
def pyRound (q : ℚ) : ℤ :=
  if q - ⌊q⌋ < 1/2 then ⌊q⌋
  else if 1/2 < q - ⌊q⌋ then ⌊q⌋ + 1
  else if ⌊q⌋ % 2 = 0 then ⌊q⌋ else ⌊q⌋ + 1

/-- The string `"window"`, the default for the `type` field of an
observation entry (`b.get("type", "window")` in the source). -/
def windowTy : String := "window"

/-- The `int()`-convertible shape of a scroll-state answer — the
projection of the raw answer type `SRawVal` below that the page machine
`Dyn` answers the state query with. `nonDict b` is any non-dict value
(`b` = Python truthiness), and `dict p m other` is a dict whose
`position`/`max` keys hold convertible values of rational value `p`/`m`
(`none` = key absent) with `other` recording whether further keys exist
(an empty dict is falsy in Python). A raw answer with a present
non-convertible field makes the real `get_state` raise from `int()`;
in the `Dyn` abstraction such a raise is a failing round-trip of the
schedule `fails`, so the value type of the non-raising round-trips is
this projection (see `SRawVal.project` and `getStateRaw_project`). -/
inductive SVal where
  | nonDict (truthy : Bool)
  | dict (position : Option ℚ) (maxv : Option ℚ) (other : Bool)
deriving DecidableEq, Repr

/-- The body of the `get_state` closure (src/screenshot_stitch.py lines
295-301) on a convertible answer: `if not s or not isinstance(s, dict):
return (0, vh)` and otherwise
`(int(s.get("position", 0)), int(s.get("max", vh)))`. -/
def getState : SVal → ℤ → ℤ × ℤ
  | .nonDict _, vh => (0, vh)
  | .dict p m other, vh =>
      if p = none ∧ m = none ∧ other = false then (0, vh)
      else (pyInt (p.getD 0), pyInt (m.getD (vh : ℚ)))

/-- A JSON value held under a key of the scroll-state object, abstracted
by how Python `int()` treats it: `num q` is a value `int()` converts —
a number, a bool, or a string holding an integer literal — with `q` such
that the conversion returns `pyInt q`; `bad` is a value `int()` raises
`TypeError` or `ValueError` on (`null`, a non-numeric string, an array,
a nested object, ...), with its Python truthiness. -/
inductive JVal where
  | num (q : ℚ)
  | bad (truthy : Bool)
deriving DecidableEq, Repr

/-- The rational value of a convertible field, `none` when `int()` would
raise on it. -/
def JVal.numOf : JVal → Option ℚ
  | .num q => some q
  | .bad _ => none

/-- A raw value returned by `eval_context.evaluate(_GET_SCROLL_STATE_JS)`,
with no assumption that the page cooperated: any non-dict value, or a
dict whose `position`/`max` keys hold arbitrary values (`none` = key
absent, `other` = whether further keys exist; the empty dict — the only
falsy dict — is `dict none none false`). -/
inductive SRawVal where
  | nonDict (truthy : Bool)
  | dict (position : Option JVal) (maxv : Option JVal) (other : Bool)
deriving DecidableEq, Repr

/-- Python `int(v)` on a value read from the state dict: `none` is a
raised `TypeError`/`ValueError`. -/
def intOf : JVal → Option ℤ
  | .num q => some (pyInt q)
  | .bad _ => none

/-- The body of the `get_state` closure (src lines 295-301) on the raw
answer: `if not s or not isinstance(s, dict): return (0, vh)`, then
`pos = int(s.get("position", 0))` and `max_pos = int(s.get("max", vh))`
— `none` is the propagated `int()` exception. -/
def getStateRaw : SRawVal → ℤ → Option (ℤ × ℤ)
  | .nonDict _, vh => some (0, vh)
  | .dict p m other, vh =>
      if p = none ∧ m = none ∧ other = false then some (0, vh)
      else
        match intOf (p.getD (.num 0)), intOf (m.getD (.num (vh : ℚ))) with
        | some pos, some maxPos => some (pos, maxPos)
        | _, _ => none

/-- The raw answers the defensive guard of `get_state` catches: the
falsy values and the non-dicts (`not s or not isinstance(s, dict)`; the
only falsy dict is the empty one). -/
def SRawVal.guarded : SRawVal → Prop
  | .nonDict _ => True
  | .dict p m other => p = none ∧ m = none ∧ other = false

/-- The raw answers with a present `position` or `max` value that
`int()` raises on. -/
def SRawVal.hasBadField : SRawVal → Prop
  | .nonDict _ => False
  | .dict p m _ => (∃ b, p = some (.bad b)) ∨ (∃ b, m = some (.bad b))

/-- Forget the non-convertible field values: the abstraction of a raw
answer that the page machine answers with. -/
def SRawVal.project : SRawVal → SVal
  | .nonDict t => .nonDict t
  | .dict p m other => .dict (p.bind JVal.numOf) (m.bind JVal.numOf) other

/-- On raw answers with no bad field the raw reader returns normally and
agrees with the total reader on the projected value: `getState` over
`SVal` is exactly `get_state` restricted to the non-raising answers. -/
theorem getStateRaw_project (v : SRawVal) (vh : ℤ) (h : ¬ v.hasBadField) :
    getStateRaw v vh = some (getState v.project vh) := by
  cases v with
  | nonDict t => rfl
  | dict p m other =>
      have hp : p = none ∨ ∃ q, p = some (.num q) := by
        cases p with
        | none => exact Or.inl rfl
        | some pv =>
            cases pv with
            | num q => exact Or.inr ⟨q, rfl⟩
            | bad b => exact absurd (Or.inl ⟨b, rfl⟩) h
      have hm : m = none ∨ ∃ q, m = some (.num q) := by
        cases m with
        | none => exact Or.inl rfl
        | some mv =>
            cases mv with
            | num q => exact Or.inr ⟨q, rfl⟩
            | bad b => exact absurd (Or.inr ⟨b, rfl⟩) h
      rcases hp with rfl | ⟨qp, rfl⟩ <;> rcases hm with rfl | ⟨qm, rfl⟩ <;>
        cases other <;>
        simp [getStateRaw, getState, SRawVal.project, JVal.numOf, intOf]

/-- An entry of the list returned by `_GET_SCROLLABLE_STATES_JS`: a dict
with optional `type`, `index`, `scrollTop` keys. -/
structure ObsDict where
  ty : Option String
  index : Option ℤ
  scrollTop : Option ℚ
deriving DecidableEq, Repr

/-- A raw element of the observation list; `none` models a non-dict
entry (skipped by the `isinstance` guard). -/
abbrev ObsEntry := Option ObsDict

/-- The `best_entry` dict built at line 279:
`{"type": b.get("type", "window"), "index": b.get("index", 0)}`. -/
structure BestEntry where
  ty : String
  index : ℤ
deriving DecidableEq, Repr

/-- The `best_entry` dict as built from a before-probe observation dict. -/
def mkBest (b : ObsDict) : BestEntry :=
  ⟨b.ty.getD windowTy, b.index.getD 0⟩

/-- One step of the selection loop (src lines 271-279): skip non-dict
pairs, compute `d = int(a.scrollTop) - int(b.scrollTop)`, and take the
pair when `st_a > st_b and d > best_delta`. -/
def selectStep (acc : ℤ × Option BestEntry) (pr : ObsEntry × ObsEntry) :
    ℤ × Option BestEntry :=
  match pr.1, pr.2 with
  | some b, some a =>
      if pyInt (a.scrollTop.getD 0) > pyInt (b.scrollTop.getD 0) ∧
          pyInt (a.scrollTop.getD 0) - pyInt (b.scrollTop.getD 0) > acc.1
      then (pyInt (a.scrollTop.getD 0) - pyInt (b.scrollTop.getD 0), some (mkBest b))
      else acc
  | _, _ => acc

/-- The behavioral-confirmation selection (src lines 268-279): fold
`selectStep` over the zipped before/after observation lists starting
from `best_delta = 0`, `best_entry = None`. -/
def selectBest (before after : List ObsEntry) : ℤ × Option BestEntry :=
  (before.zip after).foldl selectStep (0, none)

/-- The delta a pair of observation entries contributes, `none` when the
`isinstance` guard skips the pair. -/
def deltaOf : ObsEntry × ObsEntry → Option ℤ
  | (some b, some a) => some (pyInt (a.scrollTop.getD 0) - pyInt (b.scrollTop.getD 0))
  | _ => none

/-- A bitmap, reduced to its pixel dimensions (all the stitcher reads). -/
structure Img where
  width : ℤ
  height : ℤ
deriving DecidableEq, Repr

instance : Inhabited Img := ⟨⟨0, 0⟩⟩

/-- Record of the crop/paste computed for one tile in the stitch loop
(src lines 437-454): the top and bottom crop boundaries, the paste
position (`none` when the tile was skipped by `continue` or clipped to
nothing), and the height finally pasted. -/
structure CropRec where
  cropTop : ℤ
  cropBottom : ℤ
  pasteY : Option ℤ
  pastedHeight : ℤ
deriving DecidableEq, Repr

instance : Inhabited CropRec := ⟨⟨0, 0, none, 0⟩⟩

/-- The stitched output: canvas dimensions (from `Image.new` at line 434),
the per-tile crop records, and the final `next_paste_y`. -/
structure StitchOut where
  width : ℤ
  height : ℤ
  crops : List CropRec
  finalPasteY : ℤ
deriving DecidableEq, Repr

/-- The top crop of a tile (src lines 440-444): `0` for the first tile,
else `int(round(overlap_css * scale))` with
`overlap_css = max(0, prev_end_css - y_css)`. -/
def cropTopOf (scale : ℚ) (vh : ℤ) (prev : Option ℤ) (y : ℤ) : ℤ :=
  match prev with
  | none => 0
  | some yPrev => pyRound (((max 0 ((yPrev + vh) - y) : ℤ) : ℚ) * scale)

/-- The bottom crop of a tile (src line 445):
`min(img.height, int(round(min(vh, content_height_css - y_css) * scale)))`. -/
def cropBottomOf (scale : ℚ) (vh contentH : ℤ) (img : Img) (y : ℤ) : ℤ :=
  min img.height (pyRound (((min vh (contentH - y) : ℤ) : ℚ) * scale))

/-- `paste_y = next_paste_y if i > 0 else 0` (src line 449). -/
def pasteYOf (prev : Option ℤ) (npy : ℤ) : ℤ :=
  match prev with
  | none => 0
  | some _ => npy

/-- The pasted height after the canvas clip of src lines 450-451. -/
def clippedH (scale : ℚ) (vh contentH stitchH : ℤ) (prev : Option ℤ)
    (npy y : ℤ) (img : Img) : ℤ :=
  if pasteYOf prev npy +
      (cropBottomOf scale vh contentH img y - cropTopOf scale vh prev y) > stitchH
  then stitchH - pasteYOf prev npy
  else cropBottomOf scale vh contentH img y - cropTopOf scale vh prev y

/-- One iteration of the stitch loop body (src lines 438-454): the crop
record produced for this tile and the updated `next_paste_y`. A record
with `pasteY = none` is a tile skipped by `continue` or clipped to
nothing (src lines 446-447 and 452). -/
def stitchStep (scale : ℚ) (vh contentH stitchH : ℤ) (prev : Option ℤ)
    (npy y : ℤ) (img : Img) : CropRec × ℤ :=
  if cropTopOf scale vh prev y ≥ cropBottomOf scale vh contentH img y then
    (⟨cropTopOf scale vh prev y, cropBottomOf scale vh contentH img y, none, 0⟩, npy)
  else if clippedH scale vh contentH stitchH prev npy y img > 0 then
    (⟨cropTopOf scale vh prev y, cropBottomOf scale vh contentH img y,
      some (pasteYOf prev npy), clippedH scale vh contentH stitchH prev npy y img⟩,
     pasteYOf prev npy + clippedH scale vh contentH stitchH prev npy y img)
  else
    (⟨cropTopOf scale vh prev y, cropBottomOf scale vh contentH img y, none,
      clippedH scale vh contentH stitchH prev npy y img⟩,
     pasteYOf prev npy + clippedH scale vh contentH stitchH prev npy y img)

/-- The stitch loop of src lines 436-454, iterating over the
position/image pairs. `prev` is `tile_positions[i-1]` (`none` for the
first tile), `npy` is `next_paste_y`. -/
def stitchLoop (scale : ℚ) (vh contentH stitchH : ℤ) :
    List (ℤ × Img) → Option ℤ → ℤ → List CropRec → List CropRec × ℤ
  | [], _, npy, acc => (acc, npy)
  | (y, img) :: rest, prev, npy, acc =>
      stitchLoop scale vh contentH stitchH rest (some y)
        (stitchStep scale vh contentH stitchH prev npy y img).2
        (acc ++ [(stitchStep scale vh contentH stitchH prev npy y img).1])

/-- The stitcher (src lines 424-456). Requires the two lists nonempty and
of equal length (the Python code would raise `IndexError` otherwise;
its caller guarantees both). `scale = img_h / vh if vh > 0 else 1.0`,
`stitch_h = int(round(content_height_css * scale))`. -/
def stitchTiles (positions : List ℤ) (tiles : List Img) (vh : ℤ) :
    Option StitchOut :=
  if positions.length = tiles.length then
    match tiles.head?, positions.getLast? with
    | some img0, some lastPos =>
        let contentH := lastPos + vh
        let scale : ℚ := if vh > 0 then (img0.height : ℚ) / (vh : ℚ) else 1
        let stitchH := pyRound ((contentH : ℚ) * scale)
        let res := stitchLoop scale vh contentH stitchH (positions.zip tiles) none 0 []
        some ⟨img0.width, stitchH, res.1, res.2⟩
    | _, _ => none
  else none

/-- The per-step overlap margin (src line 367): `max(100, vh // 8)`. -/
def overlapMargin (vh : ℤ) : ℤ := max 100 (Int.fdiv vh 8)

/-- The per-step advance target (src line 368):
`step_start + vh - overlap_margin`. -/
def advanceTarget (stepStart vh : ℤ) : ℤ := stepStart + vh - overlapMargin vh

/-! ## The capture program as a state machine -/

/-- Result of a state-passing computation: the state is kept on error
(a raised Python exception leaves the browser page as it was). -/
inductive Res (σ : Type) (α : Type) where
  | ok (a : α) (s : σ)
  | err (s : σ)

/-- State-passing error monad. -/
def M (σ : Type) (α : Type) : Type := σ → Res σ α

instance : Monad (M σ) where
  pure a := fun s => .ok a s
  bind x f := fun s =>
    match x s with
    | .ok a s' => f a s'
    | .err s' => .err s'

/-- The state a computation ends in, whether it returned or raised. -/
def Res.stateOf : Res σ α → σ
  | .ok _ s => s
  | .err s => s

/-- A computation returned normally. -/
def Res.IsOk : Res σ α → Prop
  | .ok _ _ => True
  | .err _ => False

/-- Python `try: m except Exception: pass` — run `m`, swallow a raise. -/
def tryIgnore (m : M σ α) : M σ Unit := fun s =>
  match m s with
  | .ok _ s' => .ok () s'
  | .err s' => .ok () s'

/-- The page, as the capture sees it: an abstract internal state `π` and
one transition/observation per injected-JS or Playwright round-trip.
`fails n` says whether the `n`-th browser round-trip of the capture
raises. -/
structure Dyn (π : Type) where
  fails : ℕ → Bool
  dims : π → Option ℚ × Option ℚ
  iframeDetect : π → Bool
  findAndMark : π → π
  findMarks : π → Bool
  jsScrollTo : ℤ → π → π
  waitMs : ℕ → π → π
  mouseMove : π → π
  wheel : ℤ → π → π
  scrollStateRaw : π → SVal
  scrollableStates : π → Option (List ObsEntry)
  markByObs : BestEntry → π → π
  obsElFound : BestEntry → π → Bool
  clearMarks : π → π
  disableAnim : π → π
  hideFixed : π → π
  showFixed : π → π
  removeAnimStyle : π → π
  hideOuterOverlays : π → π
  restoreOuterOverlays : π → π
  shot : π → Img

/-- The capture's mutable state: the page, a round-trip counter, the DOM
stabilization flags, and the Python function's local lists (`tiles`,
`tile_positions`), together with instrumentation recording the computed
advance targets, the iteration count of every bounded wheel loop
(`(bound, used)`), the advance-loop iteration counts, and what was
written to the output path. -/
structure CapSt (π : Type) where
  page : π
  clock : ℕ
  fixedHidden : Bool
  noAnim : Bool
  overlayHidden : Bool
  marked : Bool
  tiles : List Img
  tilePositions : List ℤ
  targets : List (ℤ × ℤ)
  wheelLoops : List (ℕ × ℕ)
  advLoops : List ℕ
  fallbackShot : Bool
  savedStitch : Option StitchOut
deriving Repr

/-- Initial capture state over a page state. -/
def initSt (p : π) : CapSt π :=
  ⟨p, 0, false, false, false, false, [], [], [], [], [], false, none⟩

/-- Advance the round-trip counter. -/
def bump (s : CapSt π) : CapSt π := {s with clock := s.clock + 1}

/-- A browser round-trip with effect `f`; raises when the schedule says
so (the failing call has no effect on the page). -/
def prim (dyn : Dyn π) (f : CapSt π → CapSt π) : M (CapSt π) Unit := fun s =>
  if dyn.fails s.clock then .err (bump s) else .ok () (f (bump s))

/-- A read-only browser round-trip returning `g s`. -/
def primRead (dyn : Dyn π) (g : CapSt π → α) : M (CapSt π) α := fun s =>
  if dyn.fails s.clock then .err (bump s) else .ok (g s) (bump s)

/-- Read the whole capture state (no round-trip). -/
def getS : M (CapSt π) (CapSt π) := fun s => .ok s s

/-- A pure update of the capture state (no round-trip). -/
def modifyS (f : CapSt π → CapSt π) : M (CapSt π) Unit := fun s => .ok () (f s)

def pMove (dyn : Dyn π) : M (CapSt π) Unit :=
  prim dyn (fun s => {s with page := dyn.mouseMove s.page})

def pWheel (dyn : Dyn π) (d : ℤ) : M (CapSt π) Unit :=
  prim dyn (fun s => {s with page := dyn.wheel d s.page})

def pWait (dyn : Dyn π) (ms : ℕ) : M (CapSt π) Unit :=
  prim dyn (fun s => {s with page := dyn.waitMs ms s.page})

def pJsScrollTo (dyn : Dyn π) (y : ℤ) : M (CapSt π) Unit :=
  prim dyn (fun s => {s with page := dyn.jsScrollTo y s.page})

def pFindAndMark (dyn : Dyn π) : M (CapSt π) Unit :=
  prim dyn (fun s => {s with page := dyn.findAndMark s.page,
                             marked := dyn.findMarks s.page})

def pMarkByObs (dyn : Dyn π) (b : BestEntry) : M (CapSt π) Unit :=
  prim dyn (fun s => {s with page := dyn.markByObs b s.page,
                             marked := (b.ty ≠ windowTy) && dyn.obsElFound b s.page})

def pClearMarks (dyn : Dyn π) : M (CapSt π) Unit :=
  prim dyn (fun s => {s with page := dyn.clearMarks s.page, marked := false})

def pDisableAnim (dyn : Dyn π) : M (CapSt π) Unit :=
  prim dyn (fun s => {s with page := dyn.disableAnim s.page, noAnim := true})

def pHideFixed (dyn : Dyn π) : M (CapSt π) Unit :=
  prim dyn (fun s => {s with page := dyn.hideFixed s.page, fixedHidden := true})

def pShowFixed (dyn : Dyn π) : M (CapSt π) Unit :=
  prim dyn (fun s => {s with page := dyn.showFixed s.page, fixedHidden := false})

def pRemoveAnimStyle (dyn : Dyn π) : M (CapSt π) Unit :=
  prim dyn (fun s => {s with page := dyn.removeAnimStyle s.page, noAnim := false})

def pHideOverlays (dyn : Dyn π) : M (CapSt π) Unit :=
  prim dyn (fun s => {s with page := dyn.hideOuterOverlays s.page,
                             overlayHidden := true})

def pRestoreOverlays (dyn : Dyn π) : M (CapSt π) Unit :=
  prim dyn (fun s => {s with page := dyn.restoreOuterOverlays s.page,
                             overlayHidden := false})

/-- Model of `page.screenshot()` — returns the bitmap, read-only. -/
def pShot (dyn : Dyn π) : M (CapSt π) Img :=
  primRead dyn (fun s => dyn.shot s.page)

/-- Model of `page.screenshot(path=str(path))` on the zero-tiles fallback path. -/
def pShotToPath (dyn : Dyn π) : M (CapSt π) Unit :=
  prim dyn (fun s => {s with fallbackShot := true})

/-- The `get_state()` closure: evaluate `_GET_SCROLL_STATE_JS` and parse
with `getState` (src lines 295-301). -/
def pGetState (dyn : Dyn π) (vh : ℤ) : M (CapSt π) (ℤ × ℤ) :=
  primRead dyn (fun s => getState (dyn.scrollStateRaw s.page) vh)

/-- Model of the `page.evaluate` dims query (src line 216). -/
def pDims (dyn : Dyn π) : M (CapSt π) (Option ℚ × Option ℚ) :=
  primRead dyn (fun s => dyn.dims s.page)

/-- The iframe-detection block (src lines 229-252), a `try` whose whole
body is swallowed into `iframe_detected = False` on failure. -/
def pIframeDetect (dyn : Dyn π) : M (CapSt π) Bool := fun s =>
  if dyn.fails s.clock then .ok false (bump s)
  else .ok (dyn.iframeDetect s.page) (bump s)

/-- Model of `eval_context.evaluate(_GET_SCROLLABLE_STATES_JS)`; `none` models a
non-list result. -/
def pScrollableStates (dyn : Dyn π) : M (CapSt π) (Option (List ObsEntry)) :=
  primRead dyn (fun s => dyn.scrollableStates s.page)

/-- Record a bounded wheel loop's `(bound, iterations used)`. -/
def recordWheelLoop (bound used : ℕ) : M (CapSt π) Unit :=
  modifyS (fun s => {s with wheelLoops := s.wheelLoops ++ [(bound, used)]})

/-- Record a tile-advance loop's iteration count. -/
def recordAdvLoop (used : ℕ) : M (CapSt π) Unit :=
  modifyS (fun s => {s with advLoops := s.advLoops ++ [used]})

/-- Record a tile step's `(step_start, target_pos)`. -/
def recordTarget (stepStart target : ℤ) : M (CapSt π) Unit :=
  modifyS (fun s => {s with targets := s.targets ++ [(stepStart, target)]})

/-- Reset `tiles = []`, `tile_positions = []` (src lines 352-353). -/
def resetTiles : M (CapSt π) Unit :=
  modifyS (fun s => {s with tiles := [], tilePositions := []})

/-- Append to `tiles` and `tile_positions` (src lines 356-357). -/
def appendTile (img : Img) (posV : ℤ) : M (CapSt π) Unit :=
  modifyS (fun s => {s with tiles := s.tiles ++ [img],
                            tilePositions := s.tilePositions ++ [posV]})

/-- Model of `stitched.save(...)` (src line 456): record the stitch result. -/
def setStitch (o : Option StitchOut) : M (CapSt π) Unit :=
  modifyS (fun s => {s with savedStitch := o})

/-- The wheel-up retry loop (src lines 173-179 and 342-348):
`move; wheel(0, -chunk); wait; pos ← get_state; break if pos ≤ target`.
Returns the number of iterations performed. -/
def wheelUpLoop (dyn : Dyn π) (vh targetY chunk : ℤ) (ww : ℕ) :
    ℕ → ℕ → M (CapSt π) ℕ
  | 0, used => pure used
  | fuel + 1, used => do
      pMove dyn
      pWheel dyn (-chunk)
      pWait dyn ww
      let ps ← pGetState dyn vh
      if ps.1 ≤ targetY then pure (used + 1)
      else wheelUpLoop dyn vh targetY chunk ww fuel (used + 1)

/-- The wheel-down retry loop with stall detection (src lines 181-196
and 369-384): `move; wheel(0, chunk); wait; pos ← get_state;
break if pos ≥ target; reset the stall counter on advance, else bump it
and break at 15`. Returns the number of iterations performed. -/
def wheelDownLoop (dyn : Dyn π) (vh targetY chunk : ℤ) (ww : ℕ) :
    ℕ → ℤ → ℕ → ℕ → M (CapSt π) ℕ
  | 0, _, _, used => pure used
  | fuel + 1, lastPos, noAdvance, used => do
      pMove dyn
      pWheel dyn chunk
      pWait dyn ww
      let ps ← pGetState dyn vh
      if ps.1 ≥ targetY then pure (used + 1)
      else if ps.1 > lastPos then
        wheelDownLoop dyn vh targetY chunk ww fuel ps.1 0 (used + 1)
      else if noAdvance + 1 ≥ 15 then pure (used + 1)
      else wheelDownLoop dyn vh targetY chunk ww fuel lastPos (noAdvance + 1) (used + 1)

/-- The helper `_scroll_to_target` (src lines 153-197): JS scroll, settle, read;
done if exactly on target, else wheel up or down (bounded by
`max_attempts = 150`), then settle. -/
def scrollToTarget (dyn : Dyn π) (targetY vh chunk : ℤ) (ww settle : ℕ)
    (maxAttempts : ℕ) : M (CapSt π) Unit := do
  pJsScrollTo dyn targetY
  pWait dyn settle
  let ps ← pGetState dyn vh
  if ps.1 = targetY then pure ()
  else do
    (if ps.1 > targetY then do
        let used ← wheelUpLoop dyn vh targetY chunk ww maxAttempts 0
        recordWheelLoop maxAttempts used
      else do
        let used ← wheelDownLoop dyn vh targetY chunk ww maxAttempts ps.1 0 0
        recordWheelLoop maxAttempts used)
    pWait dyn settle

/-- Perform `n` synthetic wheel probes (src lines 261-264 and 282-285). -/
def wheelTimes (dyn : Dyn π) (d : ℤ) (ww : ℕ) : ℕ → M (CapSt π) Unit
  | 0 => pure ()
  | n + 1 => do
      pMove dyn
      pWheel dyn d
      pWait dyn ww
      wheelTimes dyn d ww n

/-- Viewport height from the dims query (src lines 216-220):
`vh = int(dims.get("h", 720)); if vh <= 0: vh = 720`. -/
def clampVh (d : Option ℚ × Option ℚ) : ℤ :=
  let vh0 := pyInt (d.2.getD (720 : ℚ))
  if vh0 ≤ 0 then 720 else vh0

/-- Viewport width likewise (src lines 217, 221-222). -/
def clampVw (d : Option ℚ × Option ℚ) : ℤ :=
  let vw0 := pyInt (d.1.getD (1280 : ℚ))
  if vw0 ≤ 0 then 1280 else vw0

/-- Apply the observation result (src lines 288-293): when a best entry
exists, mark it with `_MARK_SCROLL_ROOT_BY_OBSERVATION_JS` (which first
clears every existing marker); otherwise clear all markers. -/
def applyBestMark (dyn : Dyn π) (b : Option BestEntry) : M (CapSt π) Unit :=
  match b with
  | some e => pMarkByObs dyn e
  | none => pClearMarks dyn

/-- src lines 216-313 up to and including `_DISABLE_ANIMATIONS_JS`:
dims, iframe detection, geometric scroll-root marking, the
behavioral-observation probe (8 wheels down, snapshot diff, 8 wheels
back up), marking by observation, the scroll-to-bottom animation
trigger, and animation freezing. Returns `(vw, vh, iframe_detected)`. -/
def setupCore (dyn : Dyn π) (settle : ℕ) (chunk : ℤ) (ww : ℕ) :
    M (CapSt π) (ℤ × ℤ × Bool) := do
  let d ← pDims dyn
  let vh := clampVh d
  let vw := clampVw d
  let ifr ← pIframeDetect dyn
  pFindAndMark dyn
  pJsScrollTo dyn 0
  pWait dyn settle
  let before ← pScrollableStates dyn
  wheelTimes dyn chunk ww 8
  pWait dyn settle
  let after ← pScrollableStates dyn
  let best :=
    match before, after with
    | some b, some a => if b.length = a.length then selectBest b a else (0, none)
    | _, _ => ((0 : ℤ), (none : Option BestEntry))
  wheelTimes dyn (-chunk) ww 8
  pWait dyn settle
  applyBestMark dyn best.2
  let st ← pGetState dyn vh
  (if st.2 > 0 then do
      scrollToTarget dyn st.2 vh chunk ww settle 150
      pWait dyn 500
    else pure ())
  pDisableAnim dyn
  pure (vw, vh, ifr)

/-- src lines 216-333: `setupCore` followed by the iframe-scoped
outer-overlay hiding (lines 316-333, a swallowed `try`). -/
def setupPhase (dyn : Dyn π) (settle : ℕ) (chunk : ℤ) (ww : ℕ) :
    M (CapSt π) (ℤ × ℤ × Bool) := do
  let r ← setupCore dyn settle chunk ww
  (if r.2.2 then tryIgnore (pHideOverlays dyn) else pure ())
  pure r

/-- src lines 335-349: `_scroll_to_target(0)`, then if the position is
still nonzero, up to 50 wheel-up attempts and a settle. -/
def backToTopPhase (dyn : Dyn π) (vh chunk : ℤ) (ww settle : ℕ) :
    M (CapSt π) Unit := do
  scrollToTarget dyn 0 vh chunk ww settle 150
  let ps ← pGetState dyn vh
  if ps.1 ≠ 0 then do
    (do
      let used ← wheelUpLoop dyn vh 0 chunk ww 50 0
      recordWheelLoop 50 used)
    pWait dyn settle

/-- After the first tile only, hide fixed/sticky elements in a
swallowed `try` (src lines 360-364). -/
def firstTileHide (dyn : Dyn π) : M (CapSt π) Unit := do
  let s ← getS
  if s.tiles.length = 1 then tryIgnore (pHideFixed dyn) else pure ()

/-- One iteration of the tile-capture loop (src lines 354-390): read
`step_start`, screenshot, append to both lists, hide fixed elements
after the first tile, wheel toward
`target_pos = step_start + vh - overlap_margin` (bounded by 100 attempts
with 15-attempt stall detection), JS fine-tune to `target_pos`, settle,
and return whether `end_pos > step_start` (the loop-continue signal). -/
def tileBody (dyn : Dyn π) (vh chunk : ℤ) (ww settle : ℕ) :
    M (CapSt π) Bool := do
  let sp ← pGetState dyn vh
  let img ← pShot dyn
  appendTile img sp.1
  firstTileHide dyn
  recordTarget sp.1 (advanceTarget sp.1 vh)
  let used ← wheelDownLoop dyn vh (advanceTarget sp.1 vh) chunk ww 100 sp.1 0 0
  recordWheelLoop 100 used
  recordAdvLoop used
  pJsScrollTo dyn (advanceTarget sp.1 vh)
  pWait dyn settle
  let ep ← pGetState dyn vh
  pure (decide (ep.1 > sp.1))

/-- The tile loop (src lines 354-390): `while len(tiles) < max_tiles`.
Each iteration appends exactly one tile, so running the body with
`fuel = max(0, max_tiles)` starting from empty lists is exactly the
`while` guard. -/
def tileLoop (dyn : Dyn π) (vh chunk : ℤ) (ww settle : ℕ) :
    ℕ → M (CapSt π) Unit
  | 0 => pure ()
  | fuel + 1 => do
      let cont ← tileBody dyn vh chunk ww settle
      if cont then tileLoop dyn vh chunk ww settle fuel else pure ()

/-- src lines 392-409: re-show fixed/sticky elements and remove the
injected style (one swallowed `try` — a raise in the first call skips
the second), then restore outer-page overlays on the iframe path
(another swallowed `try`). -/
def restorePhase (dyn : Dyn π) (ifr : Bool) : M (CapSt π) Unit := do
  tryIgnore (do
    pShowFixed dyn
    pRemoveAnimStyle dyn)
  if ifr then tryIgnore (pRestoreOverlays dyn) else pure ()

/-- src lines 411-465: if no tiles were captured, fall back to a single
unscrolled screenshot written to the output path, clear the scroll-root
marker (swallowed `try`) and return the path; otherwise stitch, save,
clear the marker (swallowed `try`) and return the path. -/
def finishPhase (dyn : Dyn π) (vh : ℤ) (path : ρ) : M (CapSt π) ρ := do
  let s ← getS
  if s.tiles.isEmpty then do
    pShotToPath dyn
    tryIgnore (pClearMarks dyn)
    pure path
  else do
    setStitch (stitchTiles s.tilePositions s.tiles vh)
    tryIgnore (pClearMarks dyn)
    pure path

/-- The function `_capture_full_page_wheel(page, path, settle_ms, wheel_chunk,
max_tiles, wheel_wait_ms)` (src lines 200-465), as the composition of
its phases. -/
def captureFullPageWheel (dyn : Dyn π) (path : ρ) (settle : ℕ) (chunk : ℤ)
    (maxTiles : ℤ) (ww : ℕ) : M (CapSt π) ρ := do
  let r ← setupPhase dyn settle chunk ww
  backToTopPhase dyn r.2.1 chunk ww settle
  resetTiles
  tileLoop dyn r.2.1 chunk ww settle (max 0 maxTiles).toNat
  restorePhase dyn r.2.2
  finishPhase dyn r.2.1 path

/-- Run the capture from a fresh state over page state `p`. -/
def runCapture (dyn : Dyn π) (p : π) (path : ρ) (settle : ℕ) (chunk : ℤ)
    (maxTiles : ℤ) (ww : ℕ) : Res (CapSt π) ρ :=
  captureFullPageWheel dyn path settle chunk maxTiles ww (initSt p)

/-- The public API `capture_full_page_scrolled(page, path, settle_ms=200)`
(src lines 472-484): the public API with the remaining defaults
`wheel_chunk=200, max_tiles=80, wheel_wait_ms=80`. -/
def captureFullPageScrolled (dyn : Dyn π) (p : π) (path : ρ) (settle : ℕ) :
    Res (CapSt π) ρ :=
  runCapture dyn p path settle 200 80 80

/-! ## Generic reasoning about the monad -/

/-- Boolean version of `Res.IsOk`. -/
def Res.isOkB : Res σ α → Bool
  | .ok _ _ => true
  | .err _ => false

theorem run_pure (a : α) (s : σ) : (pure a : M σ α) s = .ok a s := rfl

theorem run_bind (m : M σ α) (f : α → M σ β) (s : σ) :
    (m >>= f) s = match m s with
      | .ok a t => f a t
      | .err t => .err t := rfl

theorem stateOf_err (s : σ) : (Res.err (α := α) s).stateOf = s := rfl

theorem stateOf_ok (a : α) (s : σ) : (Res.ok a s).stateOf = s := rfl

/-- A computation preserves the projection `g` of the state, on success
and on failure alike. -/
def Pres (m : M (CapSt π) α) (g : CapSt π → β) : Prop :=
  ∀ s, g ((m s).stateOf) = g s

theorem pres_pure (a : α) (g : CapSt π → β) : Pres (pure a : M (CapSt π) α) g :=
  fun _ => rfl

theorem pres_bind {m : M (CapSt π) α} {f : α → M (CapSt π) γ} {g : CapSt π → β}
    (hm : Pres m g) (hf : ∀ a, Pres (f a) g) : Pres (m >>= f) g := by
  intro s
  have hs := hm s
  rw [run_bind]
  cases h : m s with
  | ok a t =>
      rw [h, stateOf_ok] at hs
      exact (hf a t).trans hs
  | err t =>
      rw [h, stateOf_err] at hs
      exact hs

theorem pres_tryIgnore {m : M (CapSt π) α} {g : CapSt π → β}
    (hm : Pres m g) : Pres (tryIgnore m) g := by
  intro s
  have hs := hm s
  unfold tryIgnore
  cases h : m s with
  | ok a t => rw [h, stateOf_ok] at hs; exact hs
  | err t => rw [h, stateOf_err] at hs; exact hs

theorem pres_ite {m m' : M (CapSt π) α} {g : CapSt π → β} (c : Prop) [Decidable c]
    (hm : Pres m g) (hm' : Pres m' g) : Pres (if c then m else m') g := by
  by_cases h : c
  · simpa [h] using hm
  · simpa [h] using hm'

theorem pres_prim {g : CapSt π → β} (dyn : Dyn π) (f : CapSt π → CapSt π)
    (hf : ∀ s, g (f (bump s)) = g s) (hb : ∀ s, g (bump s) = g s) :
    Pres (prim dyn f) g := by
  intro s
  unfold prim
  by_cases h : dyn.fails s.clock
  · simp only [h, if_true, stateOf_err]; exact hb s
  · simp only [h, if_false, stateOf_ok]; exact hf s

theorem pres_primRead {g : CapSt π → β} (dyn : Dyn π) (rd : CapSt π → α)
    (hb : ∀ s, g (bump s) = g s) : Pres (primRead dyn rd) g := by
  intro s
  unfold primRead
  by_cases h : dyn.fails s.clock
  · simp only [h, if_true, stateOf_err]; exact hb s
  · simp only [h, if_false, stateOf_ok]; exact hb s

theorem pres_getS (g : CapSt π → β) : Pres getS g := fun _ => rfl

theorem pres_modifyS {g : CapSt π → β} (f : CapSt π → CapSt π)
    (hf : ∀ s, g (f s) = g s) : Pres (modifyS f) g := hf

theorem pres_iframeDetect {g : CapSt π → β} (dyn : Dyn π)
    (hb : ∀ s, g (bump s) = g s) : Pres (pIframeDetect dyn) g := by
  intro s
  unfold pIframeDetect
  by_cases h : dyn.fails s.clock
  · simp only [h, if_true, stateOf_ok]; exact hb s
  · simp only [h, if_false, stateOf_ok]; exact hb s

/-- A computation that never raises. -/
def Nf (m : M (CapSt π) α) : Prop := ∀ s, (m s).IsOk

theorem nf_pure (a : α) : Nf (pure a : M (CapSt π) α) := fun _ => trivial

theorem nf_bind {m : M (CapSt π) α} {f : α → M (CapSt π) β}
    (hm : Nf m) (hf : ∀ a, Nf (f a)) : Nf (m >>= f) := by
  intro s
  rw [run_bind]
  cases h : m s with
  | ok a t => exact hf a t
  | err t => have := hm s; rw [h] at this; exact this.elim

theorem nf_tryIgnore (m : M (CapSt π) α) : Nf (tryIgnore m) := by
  intro s
  unfold tryIgnore
  cases h : m s <;> simp [Res.IsOk]

theorem nf_ite {m m' : M (CapSt π) α} (c : Prop) [Decidable c]
    (hm : Nf m) (hm' : Nf m') : Nf (if c then m else m') := by
  by_cases h : c
  · simpa [h] using hm
  · simpa [h] using hm'

theorem nf_prim {dyn : Dyn π} (f : CapSt π → CapSt π)
    (hnf : ∀ n, dyn.fails n = false) : Nf (prim dyn f) := by
  intro s
  unfold prim
  simp [hnf, Res.IsOk]

theorem nf_primRead {dyn : Dyn π} (rd : CapSt π → α)
    (hnf : ∀ n, dyn.fails n = false) : Nf (primRead dyn rd) := by
  intro s
  unfold primRead
  simp [hnf, Res.IsOk]

theorem nf_getS : Nf (getS (π := π)) := fun _ => trivial

theorem nf_modifyS (f : CapSt π → CapSt π) : Nf (modifyS f) := fun _ => trivial

theorem nf_iframeDetect {dyn : Dyn π} : Nf (pIframeDetect dyn) := by
  intro s
  unfold pIframeDetect
  by_cases h : dyn.fails s.clock <;> simp [h, Res.IsOk]

theorem nf_ok {m : M (CapSt π) α} (hm : Nf m) (s : CapSt π) :
    ∃ a t, m s = .ok a t := by
  have := hm s
  cases h : m s with
  | ok a t => exact ⟨a, t, rfl⟩
  | err t => rw [h] at this; exact this.elim

/-! ## State projections and loop lemmas -/

/-- The reported scroll position of a page state (the `position`
component of `get_state`; it does not depend on the `vh` default). -/
def pagePos (dyn : Dyn π) (p : π) : ℤ :=
  (getState (dyn.scrollStateRaw p) 0).1

/-- The reported scroll position in a capture state. -/
def statePos (dyn : Dyn π) (s : CapSt π) : ℤ :=
  pagePos dyn s.page

/-- The `position` component of `get_state` does not depend on the
viewport height used for the `max` default. -/
theorem getState_fst (sv : SVal) (vh : ℤ) :
    (getState sv vh).1 = (getState sv 0).1 := by
  cases sv with
  | nonDict t => rfl
  | dict p m other =>
      unfold getState
      by_cases h : p = none ∧ m = none ∧ other = false <;> simp [h]

/-- Everything in the capture state except the page and the round-trip
counter. -/
def CapSt.core (s : CapSt π) :
    Bool × Bool × Bool × Bool × List Img × List ℤ × List (ℤ × ℤ) ×
    List (ℕ × ℕ) × List ℕ × Bool × Option StitchOut :=
  (s.fixedHidden, s.noAnim, s.overlayHidden, s.marked, s.tiles, s.tilePositions,
   s.targets, s.wheelLoops, s.advLoops, s.fallbackShot, s.savedStitch)

/-- The claim-relevant outputs other than `wheelLoops`: the tile lists,
targets, advance-loop counts, the fallback/stitch outputs, and the
outer-overlay flag. -/
def CapSt.obsv (s : CapSt π) :
    List Img × List ℤ × List (ℤ × ℤ) × List ℕ × Bool × Option StitchOut × Bool :=
  (s.tiles, s.tilePositions, s.targets, s.advLoops, s.fallbackShot,
   s.savedStitch, s.overlayHidden)

/-- The outputs of `CapSt.obsv` minus the overlay flag. -/
def CapSt.obsv2 (s : CapSt π) :
    List Img × List ℤ × List (ℤ × ℤ) × List ℕ × Bool × Option StitchOut :=
  (s.tiles, s.tilePositions, s.targets, s.advLoops, s.fallbackShot, s.savedStitch)

/-- What the restore phase leaves untouched. -/
def CapSt.obsv3 (s : CapSt π) :
    List Img × List ℤ × List (ℤ × ℤ) × List (ℕ × ℕ) × List ℕ × Bool ×
    Option StitchOut × Bool :=
  (s.tiles, s.tilePositions, s.targets, s.wheelLoops, s.advLoops,
   s.fallbackShot, s.savedStitch, s.marked)

/-- What the finish phase leaves untouched. -/
def CapSt.obsv4 (s : CapSt π) :
    List Img × List ℤ × List (ℤ × ℤ) × List (ℕ × ℕ) × List ℕ × Bool × Bool × Bool :=
  (s.tiles, s.tilePositions, s.targets, s.wheelLoops, s.advLoops,
   s.fixedHidden, s.noAnim, s.overlayHidden)

theorem pres_core_obsv {m : M (CapSt π) α} (h : Pres m CapSt.core) :
    Pres m CapSt.obsv := by
  intro s
  have hs := h s
  simp only [CapSt.core, Prod.mk.injEq] at hs
  simp only [CapSt.obsv, Prod.mk.injEq]
  tauto

theorem pres_obsv_obsv2 {m : M (CapSt π) α} (h : Pres m CapSt.obsv) :
    Pres m CapSt.obsv2 := by
  intro s
  have hs := h s
  simp only [CapSt.obsv, Prod.mk.injEq] at hs
  simp only [CapSt.obsv2, Prod.mk.injEq]
  tauto

/-- The wheel loops and probes only touch the page and the counter. -/
theorem pres_core_pMove (dyn : Dyn π) : Pres (pMove dyn) CapSt.core :=
  pres_prim dyn _ (fun _ => rfl) (fun _ => rfl)

theorem pres_core_pWheel (dyn : Dyn π) (d : ℤ) : Pres (pWheel dyn d) CapSt.core :=
  pres_prim dyn _ (fun _ => rfl) (fun _ => rfl)

theorem pres_core_pWait (dyn : Dyn π) (ms : ℕ) : Pres (pWait dyn ms) CapSt.core :=
  pres_prim dyn _ (fun _ => rfl) (fun _ => rfl)

theorem pres_core_pJsScrollTo (dyn : Dyn π) (y : ℤ) :
    Pres (pJsScrollTo dyn y) CapSt.core :=
  pres_prim dyn _ (fun _ => rfl) (fun _ => rfl)

theorem pres_core_pGetState (dyn : Dyn π) (vh : ℤ) :
    Pres (pGetState dyn vh) CapSt.core :=
  pres_primRead dyn _ (fun _ => rfl)

theorem pres_core_pShot (dyn : Dyn π) : Pres (pShot dyn) CapSt.core :=
  pres_primRead dyn _ (fun _ => rfl)

theorem pres_core_wheelUpLoop (dyn : Dyn π) (vh t chunk : ℤ) (ww : ℕ) :
    ∀ fuel used, Pres (wheelUpLoop dyn vh t chunk ww fuel used) CapSt.core := by
  intro fuel
  induction fuel with
  | zero => intro used; exact pres_pure _ _
  | succ n ih =>
      intro used
      unfold wheelUpLoop
      exact pres_bind (pres_core_pMove dyn) (fun _ =>
        pres_bind (pres_core_pWheel dyn _) (fun _ =>
          pres_bind (pres_core_pWait dyn ww) (fun _ =>
            pres_bind (pres_core_pGetState dyn vh) (fun ps =>
              pres_ite _ (pres_pure _ _) (ih _)))))

theorem pres_core_wheelDownLoop (dyn : Dyn π) (vh t chunk : ℤ) (ww : ℕ) :
    ∀ fuel lastPos na used,
      Pres (wheelDownLoop dyn vh t chunk ww fuel lastPos na used) CapSt.core := by
  intro fuel
  induction fuel with
  | zero => intro lastPos na used; exact pres_pure _ _
  | succ n ih =>
      intro lastPos na used
      unfold wheelDownLoop
      exact pres_bind (pres_core_pMove dyn) (fun _ =>
        pres_bind (pres_core_pWheel dyn _) (fun _ =>
          pres_bind (pres_core_pWait dyn ww) (fun _ =>
            pres_bind (pres_core_pGetState dyn vh) (fun ps =>
              pres_ite _ (pres_pure _ _)
                (pres_ite _ (ih _ _ _)
                  (pres_ite _ (pres_pure _ _) (ih _ _ _)))))))

theorem pres_core_wheelTimes (dyn : Dyn π) (d : ℤ) (ww : ℕ) :
    ∀ n, Pres (wheelTimes dyn d ww n) CapSt.core := by
  intro n
  induction n with
  | zero => exact pres_pure _ _
  | succ k ih =>
      unfold wheelTimes
      exact pres_bind (pres_core_pMove dyn) (fun _ =>
        pres_bind (pres_core_pWheel dyn d) (fun _ =>
          pres_bind (pres_core_pWait dyn ww) (fun _ => ih)))

/-- Reduce a bind whose first component is known to succeed. -/
theorem run_bind_ok {m : M σ α} {f : α → M σ β} {s t : σ} {a : α}
    (h : m s = .ok a t) : (m >>= f) s = f a t := by
  rw [run_bind, h]

/-- Reduce a bind whose first component is known to fail. -/
theorem run_bind_err {m : M σ α} {f : α → M σ β} {s t : σ}
    (h : m s = .err t) : (m >>= f) s = .err t := by
  rw [run_bind, h]

/-- Iteration-count bound for the wheel-up loop: at most `fuel` more
than its starting count. -/
theorem wheelUpLoop_count (dyn : Dyn π) (vh t chunk : ℤ) (ww : ℕ) :
    ∀ fuel used s u s', wheelUpLoop dyn vh t chunk ww fuel used s = .ok u s' →
      u ≤ used + fuel := by
  intro fuel
  induction fuel with
  | zero =>
      intro used s u s' h
      simp only [wheelUpLoop, run_pure] at h
      cases h
      omega
  | succ n ih =>
      intro used s u s' h
      unfold wheelUpLoop at h
      cases h1 : pMove dyn s with
      | err t1 => rw [run_bind_err h1] at h; cases h
      | ok a1 t1 =>
          rw [run_bind_ok h1] at h
          cases h2 : pWheel dyn (-chunk) t1 with
          | err t2 => rw [run_bind_err h2] at h; cases h
          | ok a2 t2 =>
              rw [run_bind_ok h2] at h
              cases h3 : pWait dyn ww t2 with
              | err t3 => rw [run_bind_err h3] at h; cases h
              | ok a3 t3 =>
                  rw [run_bind_ok h3] at h
                  cases h4 : pGetState dyn vh t3 with
                  | err t4 => rw [run_bind_err h4] at h; cases h
                  | ok ps t4 =>
                      rw [run_bind_ok h4] at h
                      by_cases hc : ps.1 ≤ t
                      · simp only [hc, if_true, run_pure] at h
                        cases h
                        omega
                      · simp only [hc, if_false] at h
                        have := ih (used + 1) t4 u s' h
                        omega

/-- How `pGetState` runs: it fails, or returns the parsed scroll state
and only bumps the counter. -/
theorem pGetState_run (dyn : Dyn π) (vh : ℤ) (s : CapSt π) :
    pGetState dyn vh s = .err (bump s) ∨
    pGetState dyn vh s = .ok (getState (dyn.scrollStateRaw s.page) vh) (bump s) := by
  unfold pGetState primRead
  by_cases h : dyn.fails s.clock <;> simp [h]

/-- The position returned by `pGetState` is `statePos`. -/
theorem pGetState_fst (dyn : Dyn π) (vh : ℤ) (s : CapSt π) :
    (getState (dyn.scrollStateRaw s.page) vh).1 = statePos dyn s :=
  getState_fst _ _

/-- Iteration-count bound for the wheel-down loop. -/
theorem wheelDownLoop_count (dyn : Dyn π) (vh t chunk : ℤ) (ww : ℕ) :
    ∀ fuel lastPos na used s u s',
      wheelDownLoop dyn vh t chunk ww fuel lastPos na used s = .ok u s' →
      u ≤ used + fuel := by
  intro fuel
  induction fuel with
  | zero =>
      intro lastPos na used s u s' h
      simp only [wheelDownLoop, run_pure] at h
      cases h
      omega
  | succ n ih =>
      intro lastPos na used s u s' h
      unfold wheelDownLoop at h
      cases h1 : pMove dyn s with
      | err t1 => rw [run_bind_err h1] at h; cases h
      | ok a1 t1 =>
          rw [run_bind_ok h1] at h
          cases h2 : pWheel dyn chunk t1 with
          | err t2 => rw [run_bind_err h2] at h; cases h
          | ok a2 t2 =>
              rw [run_bind_ok h2] at h
              cases h3 : pWait dyn ww t2 with
              | err t3 => rw [run_bind_err h3] at h; cases h
              | ok a3 t3 =>
                  rw [run_bind_ok h3] at h
                  cases h4 : pGetState dyn vh t3 with
                  | err t4 => rw [run_bind_err h4] at h; cases h
                  | ok ps t4 =>
                      rw [run_bind_ok h4] at h
                      by_cases hc1 : ps.1 ≥ t
                      · simp only [hc1, if_true, run_pure] at h
                        cases h
                        omega
                      · simp only [hc1, if_false] at h
                        by_cases hc2 : ps.1 > lastPos
                        · simp only [hc2, if_true] at h
                          have := ih ps.1 0 (used + 1) t4 u s' h
                          omega
                        · simp only [hc2, if_false] at h
                          by_cases hc3 : na + 1 ≥ 15
                          · simp only [hc3, if_true, run_pure] at h
                            cases h
                            omega
                          · simp only [hc3, if_false] at h
                            have := ih lastPos (na + 1) (used + 1) t4 u s' h
                            omega

/-- Stall detection: when the page's reported position never moves, the
wheel-down loop performs at most `15 - na` further iterations (at most
15 from a fresh start) before giving up. -/
theorem wheelDownLoop_stall (dyn : Dyn π) (vh t chunk : ℤ) (ww : ℕ) (c : ℤ)
    (hp : ∀ q, pagePos dyn q = c) :
    ∀ fuel lastPos na used s u s', c ≤ lastPos → na ≤ 14 →
      wheelDownLoop dyn vh t chunk ww fuel lastPos na used s = .ok u s' →
      u ≤ used + (15 - na) := by
  intro fuel
  induction fuel with
  | zero =>
      intro lastPos na used s u s' hl hna h
      simp only [wheelDownLoop, run_pure] at h
      cases h
      omega
  | succ n ih =>
      intro lastPos na used s u s' hl hna h
      unfold wheelDownLoop at h
      cases h1 : pMove dyn s with
      | err t1 => rw [run_bind_err h1] at h; cases h
      | ok a1 t1 =>
          rw [run_bind_ok h1] at h
          cases h2 : pWheel dyn chunk t1 with
          | err t2 => rw [run_bind_err h2] at h; cases h
          | ok a2 t2 =>
              rw [run_bind_ok h2] at h
              cases h3 : pWait dyn ww t2 with
              | err t3 => rw [run_bind_err h3] at h; cases h
              | ok a3 t3 =>
                  rw [run_bind_ok h3] at h
                  cases h4 : pGetState dyn vh t3 with
                  | err t4 => rw [run_bind_err h4] at h; cases h
                  | ok ps t4 =>
                      have hv : ps.1 = c := by
                        rcases pGetState_run dyn vh t3 with hr | hr
                        · rw [hr] at h4; cases h4
                        · rw [hr] at h4
                          cases h4
                          rw [pGetState_fst]
                          exact hp _
                      rw [run_bind_ok h4] at h
                      by_cases hc1 : ps.1 ≥ t
                      · simp only [hc1, if_true, run_pure] at h
                        cases h
                        omega
                      · simp only [hc1, if_false] at h
                        have hc2 : ¬ ps.1 > lastPos := by omega
                        simp only [hc2, if_false] at h
                        by_cases hc3 : na + 1 ≥ 15
                        · simp only [hc3, if_true, run_pure] at h
                          cases h
                          omega
                        · simp only [hc3, if_false] at h
                          have := ih lastPos (na + 1) (used + 1) t4 u s' hl (by omega) h
                          omega

theorem nf_wheelUpLoop {dyn : Dyn π} (vh t chunk : ℤ) (ww : ℕ)
    (hnf : ∀ n, dyn.fails n = false) :
    ∀ fuel used, Nf (wheelUpLoop dyn vh t chunk ww fuel used) := by
  intro fuel
  induction fuel with
  | zero => intro used; exact nf_pure _
  | succ n ih =>
      intro used
      unfold wheelUpLoop
      exact nf_bind (nf_prim _ hnf) (fun _ =>
        nf_bind (nf_prim _ hnf) (fun _ =>
          nf_bind (nf_prim _ hnf) (fun _ =>
            nf_bind (nf_primRead _ hnf) (fun ps =>
              nf_ite _ (nf_pure _) (ih _)))))

theorem nf_wheelDownLoop {dyn : Dyn π} (vh t chunk : ℤ) (ww : ℕ)
    (hnf : ∀ n, dyn.fails n = false) :
    ∀ fuel lastPos na used, Nf (wheelDownLoop dyn vh t chunk ww fuel lastPos na used) := by
  intro fuel
  induction fuel with
  | zero => intro lastPos na used; exact nf_pure _
  | succ n ih =>
      intro lastPos na used
      unfold wheelDownLoop
      exact nf_bind (nf_prim _ hnf) (fun _ =>
        nf_bind (nf_prim _ hnf) (fun _ =>
          nf_bind (nf_prim _ hnf) (fun _ =>
            nf_bind (nf_primRead _ hnf) (fun ps =>
              nf_ite _ (nf_pure _)
                (nf_ite _ (ih _ _ _)
                  (nf_ite _ (nf_pure _) (ih _ _ _)))))))

theorem nf_wheelTimes {dyn : Dyn π} (d : ℤ) (ww : ℕ)
    (hnf : ∀ n, dyn.fails n = false) :
    ∀ n, Nf (wheelTimes dyn d ww n) := by
  intro n
  induction n with
  | zero => exact nf_pure _
  | succ k ih =>
      unfold wheelTimes
      exact nf_bind (nf_prim _ hnf) (fun _ =>
        nf_bind (nf_prim _ hnf) (fun _ =>
          nf_bind (nf_prim _ hnf) (fun _ => ih)))

/-- How a `prim` runs. -/
theorem prim_run (dyn : Dyn π) (f : CapSt π → CapSt π) (s : CapSt π) :
    prim dyn f s = .err (bump s) ∨ prim dyn f s = .ok () (f (bump s)) := by
  unfold prim
  by_cases h : dyn.fails s.clock <;> simp [h]

/-- A computation only appends well-bounded entries to `wheelLoops`. -/
def WlOk (m : M (CapSt π) α) : Prop :=
  ∀ s, ∃ ext, ((m s).stateOf).wheelLoops = s.wheelLoops ++ ext ∧
    ∀ pr ∈ ext, pr.2 ≤ pr.1

theorem wlOk_of_pres {m : M (CapSt π) α} (h : Pres m CapSt.wheelLoops) :
    WlOk m := by
  intro s
  exact ⟨[], by simpa using h s, by simp⟩

theorem wlOk_of_pres_core {m : M (CapSt π) α} (h : Pres m CapSt.core) :
    WlOk m := by
  apply wlOk_of_pres
  intro s
  have hs := h s
  simp only [CapSt.core, Prod.mk.injEq] at hs
  tauto

theorem wlOk_pure (a : α) : WlOk (pure a : M (CapSt π) α) :=
  fun s => ⟨[], by simp [run_pure, Res.stateOf], by simp⟩

theorem wlOk_bind {m : M (CapSt π) α} {f : α → M (CapSt π) β}
    (hm : WlOk m) (hf : ∀ a, WlOk (f a)) : WlOk (m >>= f) := by
  intro s
  obtain ⟨e1, he1, hb1⟩ := hm s
  cases h : m s with
  | ok a t =>
      rw [h, stateOf_ok] at he1
      obtain ⟨e2, he2, hb2⟩ := hf a t
      refine ⟨e1 ++ e2, ?_, ?_⟩
      · rw [run_bind_ok h, he2, he1, List.append_assoc]
      · intro pr hpr
        rcases List.mem_append.mp hpr with hh | hh
        · exact hb1 pr hh
        · exact hb2 pr hh
  | err t =>
      rw [h, stateOf_err] at he1
      exact ⟨e1, by rw [run_bind_err h, stateOf_err, he1], hb1⟩

theorem wlOk_ite {m m' : M (CapSt π) α} (c : Prop) [Decidable c]
    (hm : WlOk m) (hm' : WlOk m') : WlOk (if c then m else m') := by
  by_cases h : c
  · simpa [h] using hm
  · simpa [h] using hm'

theorem wlOk_tryIgnore {m : M (CapSt π) α} (hm : WlOk m) :
    WlOk (tryIgnore m) := by
  intro s
  obtain ⟨e1, he1, hb1⟩ := hm s
  unfold tryIgnore
  cases h : m s with
  | ok a t => rw [h, stateOf_ok] at he1; exact ⟨e1, he1, hb1⟩
  | err t => rw [h, stateOf_err] at he1; exact ⟨e1, he1, hb1⟩

/-- Running a wheel-up loop and recording its count appends one
well-bounded entry. -/
theorem wlOk_upRecord (dyn : Dyn π) (vh t chunk : ℤ) (ww fuel : ℕ) :
    WlOk (wheelUpLoop dyn vh t chunk ww fuel 0 >>= fun u => recordWheelLoop fuel u) := by
  intro s
  cases h : wheelUpLoop dyn vh t chunk ww fuel 0 s with
  | ok u t1 =>
      have hw : t1.wheelLoops = s.wheelLoops := by
        have hc := pres_core_wheelUpLoop dyn vh t chunk ww fuel 0 s
        rw [h, stateOf_ok] at hc
        simp only [CapSt.core, Prod.mk.injEq] at hc
        tauto
      have hu : u ≤ fuel := by
        have := wheelUpLoop_count dyn vh t chunk ww fuel 0 s u t1 h
        omega
      refine ⟨[(fuel, u)], ?_, ?_⟩
      · rw [run_bind_ok h]
        simp [recordWheelLoop, modifyS, Res.stateOf, hw]
      · simpa using hu
  | err t1 =>
      have hw : t1.wheelLoops = s.wheelLoops := by
        have hc := pres_core_wheelUpLoop dyn vh t chunk ww fuel 0 s
        rw [h, stateOf_err] at hc
        simp only [CapSt.core, Prod.mk.injEq] at hc
        tauto
      exact ⟨[], by rw [run_bind_err h, stateOf_err, hw, List.append_nil], by simp⟩

/-- Running a wheel-down loop and recording its count appends one
well-bounded entry. -/
theorem wlOk_downRecord (dyn : Dyn π) (vh t chunk : ℤ) (ww fuel : ℕ) (lp : ℤ) :
    WlOk (wheelDownLoop dyn vh t chunk ww fuel lp 0 0 >>= fun u => recordWheelLoop fuel u) := by
  intro s
  cases h : wheelDownLoop dyn vh t chunk ww fuel lp 0 0 s with
  | ok u t1 =>
      have hw : t1.wheelLoops = s.wheelLoops := by
        have hc := pres_core_wheelDownLoop dyn vh t chunk ww fuel lp 0 0 s
        rw [h, stateOf_ok] at hc
        simp only [CapSt.core, Prod.mk.injEq] at hc
        tauto
      have hu : u ≤ fuel := by
        have := wheelDownLoop_count dyn vh t chunk ww fuel lp 0 0 s u t1 h
        omega
      refine ⟨[(fuel, u)], ?_, ?_⟩
      · rw [run_bind_ok h]
        simp [recordWheelLoop, modifyS, Res.stateOf, hw]
      · simpa using hu
  | err t1 =>
      have hw : t1.wheelLoops = s.wheelLoops := by
        have hc := pres_core_wheelDownLoop dyn vh t chunk ww fuel lp 0 0 s
        rw [h, stateOf_err] at hc
        simp only [CapSt.core, Prod.mk.injEq] at hc
        tauto
      exact ⟨[], by rw [run_bind_err h, stateOf_err, hw, List.append_nil], by simp⟩

/-! ## Per-primitive preservation and no-failure facts -/

theorem pres_obsv_pMove (dyn : Dyn π) : Pres (pMove dyn) CapSt.obsv := by
  unfold pMove
  exact pres_prim dyn _ (fun _ => rfl) (fun _ => rfl)

theorem pres_obsv_pWheel (dyn : Dyn π) (d : ℤ) : Pres (pWheel dyn d) CapSt.obsv := by
  unfold pWheel
  exact pres_prim dyn _ (fun _ => rfl) (fun _ => rfl)

theorem pres_obsv_pWait (dyn : Dyn π) (ms : ℕ) : Pres (pWait dyn ms) CapSt.obsv := by
  unfold pWait
  exact pres_prim dyn _ (fun _ => rfl) (fun _ => rfl)

theorem pres_obsv_pJsScrollTo (dyn : Dyn π) (y : ℤ) :
    Pres (pJsScrollTo dyn y) CapSt.obsv := by
  unfold pJsScrollTo
  exact pres_prim dyn _ (fun _ => rfl) (fun _ => rfl)

theorem pres_obsv_pFindAndMark (dyn : Dyn π) :
    Pres (pFindAndMark dyn) CapSt.obsv := by
  unfold pFindAndMark
  exact pres_prim dyn _ (fun _ => rfl) (fun _ => rfl)

theorem pres_obsv_pMarkByObs (dyn : Dyn π) (b : BestEntry) :
    Pres (pMarkByObs dyn b) CapSt.obsv := by
  unfold pMarkByObs
  exact pres_prim dyn _ (fun _ => rfl) (fun _ => rfl)

theorem pres_obsv_pClearMarks (dyn : Dyn π) :
    Pres (pClearMarks dyn) CapSt.obsv := by
  unfold pClearMarks
  exact pres_prim dyn _ (fun _ => rfl) (fun _ => rfl)

theorem pres_obsv_pDisableAnim (dyn : Dyn π) :
    Pres (pDisableAnim dyn) CapSt.obsv := by
  unfold pDisableAnim
  exact pres_prim dyn _ (fun _ => rfl) (fun _ => rfl)

theorem pres_obsv_pHideFixed (dyn : Dyn π) :
    Pres (pHideFixed dyn) CapSt.obsv := by
  unfold pHideFixed
  exact pres_prim dyn _ (fun _ => rfl) (fun _ => rfl)

theorem pres_obsv_pShowFixed (dyn : Dyn π) :
    Pres (pShowFixed dyn) CapSt.obsv := by
  unfold pShowFixed
  exact pres_prim dyn _ (fun _ => rfl) (fun _ => rfl)

theorem pres_obsv_pRemoveAnimStyle (dyn : Dyn π) :
    Pres (pRemoveAnimStyle dyn) CapSt.obsv := by
  unfold pRemoveAnimStyle
  exact pres_prim dyn _ (fun _ => rfl) (fun _ => rfl)

theorem pres_obsv_pGetState (dyn : Dyn π) (vh : ℤ) :
    Pres (pGetState dyn vh) CapSt.obsv := by
  unfold pGetState
  exact pres_primRead dyn _ (fun _ => rfl)

theorem pres_obsv_pShot (dyn : Dyn π) : Pres (pShot dyn) CapSt.obsv := by
  unfold pShot
  exact pres_primRead dyn _ (fun _ => rfl)

theorem pres_obsv_pDims (dyn : Dyn π) : Pres (pDims dyn) CapSt.obsv := by
  unfold pDims
  exact pres_primRead dyn _ (fun _ => rfl)

theorem pres_obsv_pScrollableStates (dyn : Dyn π) :
    Pres (pScrollableStates dyn) CapSt.obsv := by
  unfold pScrollableStates
  exact pres_primRead dyn _ (fun _ => rfl)

theorem pres_obsv_pIframeDetect (dyn : Dyn π) :
    Pres (pIframeDetect dyn) CapSt.obsv :=
  pres_iframeDetect dyn (fun _ => rfl)

theorem pres_obsv_recordWheelLoop (bound used : ℕ) :
    Pres (recordWheelLoop (π := π) bound used) CapSt.obsv :=
  pres_modifyS _ (fun _ => rfl)

theorem pres_obsv_wheelUpLoop (dyn : Dyn π) (vh t chunk : ℤ) (ww fuel used : ℕ) :
    Pres (wheelUpLoop dyn vh t chunk ww fuel used) CapSt.obsv :=
  pres_core_obsv (pres_core_wheelUpLoop dyn vh t chunk ww fuel used)

theorem pres_obsv_wheelDownLoop (dyn : Dyn π) (vh t chunk : ℤ) (ww fuel : ℕ)
    (lp : ℤ) (na used : ℕ) :
    Pres (wheelDownLoop dyn vh t chunk ww fuel lp na used) CapSt.obsv :=
  pres_core_obsv (pres_core_wheelDownLoop dyn vh t chunk ww fuel lp na used)

theorem pres_obsv_wheelTimes (dyn : Dyn π) (d : ℤ) (ww n : ℕ) :
    Pres (wheelTimes dyn d ww n) CapSt.obsv :=
  pres_core_obsv (pres_core_wheelTimes dyn d ww n)

theorem pres_obsv_scrollToTarget (dyn : Dyn π) (t vh chunk : ℤ) (ww settle ma : ℕ) :
    Pres (scrollToTarget dyn t vh chunk ww settle ma) CapSt.obsv := by
  unfold scrollToTarget
  refine pres_bind (pres_obsv_pJsScrollTo dyn t) (fun _ => ?_)
  refine pres_bind (pres_obsv_pWait dyn settle) (fun _ => ?_)
  refine pres_bind (pres_obsv_pGetState dyn vh) (fun ps => ?_)
  refine pres_ite _ (pres_pure _ _) ?_
  refine pres_bind (pres_ite _ ?_ ?_) (fun _ => pres_obsv_pWait dyn settle)
  · exact pres_bind (pres_obsv_wheelUpLoop dyn vh t chunk ww ma 0)
      (fun u => pres_obsv_recordWheelLoop ma u)
  · exact pres_bind (pres_obsv_wheelDownLoop dyn vh t chunk ww ma ps.1 0 0)
      (fun u => pres_obsv_recordWheelLoop ma u)

theorem wlOk_scrollToTarget (dyn : Dyn π) (t vh chunk : ℤ) (ww settle ma : ℕ) :
    WlOk (scrollToTarget dyn t vh chunk ww settle ma) := by
  unfold scrollToTarget
  refine wlOk_bind (wlOk_of_pres_core ?_) (fun _ => ?_)
  · unfold pJsScrollTo; exact pres_prim dyn _ (fun _ => rfl) (fun _ => rfl)
  refine wlOk_bind (wlOk_of_pres_core ?_) (fun _ => ?_)
  · exact pres_core_pWait dyn settle
  refine wlOk_bind (wlOk_of_pres_core (pres_core_pGetState dyn vh)) (fun ps => ?_)
  refine wlOk_ite _ (wlOk_pure _) ?_
  refine wlOk_bind (wlOk_ite _ ?_ ?_) (fun _ => wlOk_of_pres_core (pres_core_pWait dyn settle))
  · exact wlOk_upRecord dyn vh t chunk ww ma
  · exact wlOk_downRecord dyn vh t chunk ww ma ps.1

theorem nf_scrollToTarget {dyn : Dyn π} (t vh chunk : ℤ) (ww settle ma : ℕ)
    (hnf : ∀ n, dyn.fails n = false) :
    Nf (scrollToTarget dyn t vh chunk ww settle ma) := by
  unfold scrollToTarget
  refine nf_bind (by unfold pJsScrollTo; exact nf_prim _ hnf) (fun _ => ?_)
  refine nf_bind (by unfold pWait; exact nf_prim _ hnf) (fun _ => ?_)
  refine nf_bind (by unfold pGetState; exact nf_primRead _ hnf) (fun ps => ?_)
  refine nf_ite _ (nf_pure _) ?_
  refine nf_bind (nf_ite _ ?_ ?_) (fun _ => by unfold pWait; exact nf_prim _ hnf)
  · exact nf_bind (nf_wheelUpLoop vh t chunk ww hnf ma 0) (fun u => nf_modifyS _)
  · exact nf_bind (nf_wheelDownLoop vh t chunk ww hnf ma ps.1 0 0) (fun u => nf_modifyS _)

theorem pJsScrollTo_run (dyn : Dyn π) (y : ℤ) (s : CapSt π) :
    pJsScrollTo dyn y s = .err (bump s) ∨
    pJsScrollTo dyn y s = .ok () {bump s with page := dyn.jsScrollTo y s.page} := by
  unfold pJsScrollTo
  exact prim_run dyn _ s

theorem pWait_run (dyn : Dyn π) (ms : ℕ) (s : CapSt π) :
    pWait dyn ms s = .err (bump s) ∨
    pWait dyn ms s = .ok () {bump s with page := dyn.waitMs ms s.page} := by
  unfold pWait
  exact prim_run dyn _ s

/-- After a successful `_scroll_to_target(0)` against a page that honors
JS scroll-to-top (`h1`) and does not scroll itself during waits (`h2`),
the reported position is `0` (the early-return branch is taken). -/
theorem scrollToTarget0_pos (dyn : Dyn π) (vh chunk : ℤ) (ww settle ma : ℕ)
    (h1 : ∀ q, pagePos dyn (dyn.jsScrollTo 0 q) = 0)
    (h2 : ∀ ms q, pagePos dyn (dyn.waitMs ms q) = pagePos dyn q) :
    ∀ s u s', scrollToTarget dyn 0 vh chunk ww settle ma s = .ok u s' →
      statePos dyn s' = 0 := by
  intro s u s' h
  unfold scrollToTarget at h
  rcases pJsScrollTo_run dyn 0 s with hr | hr
  · rw [run_bind_err hr] at h; cases h
  · rw [run_bind_ok hr] at h
    rcases pWait_run dyn settle {bump s with page := dyn.jsScrollTo 0 s.page} with hw | hw
    · rw [run_bind_err hw] at h; cases h
    · rw [run_bind_ok hw] at h
      rcases pGetState_run dyn vh
          {bump {bump s with page := dyn.jsScrollTo 0 s.page} with
            page := dyn.waitMs settle (dyn.jsScrollTo 0 s.page)} with hg | hg
      · rw [run_bind_err hg] at h; cases h
      · rw [run_bind_ok hg] at h
        have hps : (getState (dyn.scrollStateRaw
            (dyn.waitMs settle (dyn.jsScrollTo 0 s.page))) vh).1 = 0 := by
          rw [getState_fst]
          show pagePos dyn (dyn.waitMs settle (dyn.jsScrollTo 0 s.page)) = 0
          rw [h2, h1]
        simp only [hps, if_pos, run_pure] at h
        cases h
        show pagePos dyn (dyn.waitMs settle (dyn.jsScrollTo 0 s.page)) = 0
        rw [h2, h1]

theorem pres_obsv_backToTop (dyn : Dyn π) (vh chunk : ℤ) (ww settle : ℕ) :
    Pres (backToTopPhase dyn vh chunk ww settle) CapSt.obsv := by
  unfold backToTopPhase
  refine pres_bind (pres_obsv_scrollToTarget dyn 0 vh chunk ww settle 150) (fun _ => ?_)
  refine pres_bind (pres_obsv_pGetState dyn vh) (fun ps => ?_)
  refine pres_ite _ ?_ (pres_pure _ _)
  refine pres_bind (pres_bind (pres_obsv_wheelUpLoop dyn vh 0 chunk ww 50 0)
    (fun u => pres_obsv_recordWheelLoop 50 u)) (fun _ => pres_obsv_pWait dyn settle)

theorem wlOk_backToTop (dyn : Dyn π) (vh chunk : ℤ) (ww settle : ℕ) :
    WlOk (backToTopPhase dyn vh chunk ww settle) := by
  unfold backToTopPhase
  refine wlOk_bind (wlOk_scrollToTarget dyn 0 vh chunk ww settle 150) (fun _ => ?_)
  refine wlOk_bind (wlOk_of_pres_core (pres_core_pGetState dyn vh)) (fun ps => ?_)
  refine wlOk_ite _ ?_ (wlOk_pure _)
  refine wlOk_bind (wlOk_upRecord dyn vh 0 chunk ww 50)
    (fun _ => wlOk_of_pres_core (pres_core_pWait dyn settle))

theorem nf_backToTop {dyn : Dyn π} (vh chunk : ℤ) (ww settle : ℕ)
    (hnf : ∀ n, dyn.fails n = false) :
    Nf (backToTopPhase dyn vh chunk ww settle) := by
  unfold backToTopPhase
  refine nf_bind (nf_scrollToTarget 0 vh chunk ww settle 150 hnf) (fun _ => ?_)
  refine nf_bind (by unfold pGetState; exact nf_primRead _ hnf) (fun ps => ?_)
  refine nf_ite _ ?_ (nf_pure _)
  refine nf_bind (nf_bind (nf_wheelUpLoop vh 0 chunk ww hnf 50 0) (fun u => nf_modifyS _))
    (fun _ => by unfold pWait; exact nf_prim _ hnf)

/-- After a successful back-to-top phase against a compliant page, the
reported position is `0`. -/
theorem backToTop_pos (dyn : Dyn π) (vh chunk : ℤ) (ww settle : ℕ)
    (h1 : ∀ q, pagePos dyn (dyn.jsScrollTo 0 q) = 0)
    (h2 : ∀ ms q, pagePos dyn (dyn.waitMs ms q) = pagePos dyn q) :
    ∀ s u s', backToTopPhase dyn vh chunk ww settle s = .ok u s' →
      statePos dyn s' = 0 := by
  intro s u s' h
  unfold backToTopPhase at h
  cases h0 : scrollToTarget dyn 0 vh chunk ww settle 150 s with
  | err t0 => rw [run_bind_err h0] at h; cases h
  | ok u0 t0 =>
      have ht0 : statePos dyn t0 = 0 :=
        scrollToTarget0_pos dyn vh chunk ww settle 150 h1 h2 s u0 t0 h0
      rw [run_bind_ok h0] at h
      rcases pGetState_run dyn vh t0 with hg | hg
      · rw [run_bind_err hg] at h; cases h
      · rw [run_bind_ok hg] at h
        have hps : (getState (dyn.scrollStateRaw t0.page) vh).1 = 0 := by
          rw [getState_fst]
          exact ht0
        simp only [hps, ne_eq, not_true_eq_false, if_neg, if_false, run_pure,
          not_false_eq_true] at h
        cases h
        exact ht0

theorem pres_obsv_applyBestMark (dyn : Dyn π) (b : Option BestEntry) :
    Pres (applyBestMark dyn b) CapSt.obsv := by
  cases b with
  | none => exact pres_obsv_pClearMarks dyn
  | some e => exact pres_obsv_pMarkByObs dyn e

theorem pres_wl_pClearMarks (dyn : Dyn π) :
    Pres (pClearMarks dyn) CapSt.wheelLoops := by
  unfold pClearMarks
  exact pres_prim dyn _ (fun _ => rfl) (fun _ => rfl)

theorem pres_wl_pMarkByObs (dyn : Dyn π) (e : BestEntry) :
    Pres (pMarkByObs dyn e) CapSt.wheelLoops := by
  unfold pMarkByObs
  exact pres_prim dyn _ (fun _ => rfl) (fun _ => rfl)

theorem wlOk_applyBestMark (dyn : Dyn π) (b : Option BestEntry) :
    WlOk (applyBestMark dyn b) := by
  cases b with
  | none => exact wlOk_of_pres (pres_wl_pClearMarks dyn)
  | some e => exact wlOk_of_pres (pres_wl_pMarkByObs dyn e)

theorem nf_applyBestMark (dyn : Dyn π) (hnf : ∀ n, dyn.fails n = false)
    (b : Option BestEntry) : Nf (applyBestMark dyn b) := by
  cases b with
  | none => unfold applyBestMark pClearMarks; exact nf_prim _ hnf
  | some e => unfold applyBestMark pMarkByObs; exact nf_prim _ hnf

theorem pres_obsv_setupCore (dyn : Dyn π) (settle : ℕ) (chunk : ℤ) (ww : ℕ) :
    Pres (setupCore dyn settle chunk ww) CapSt.obsv := by
  unfold setupCore
  refine pres_bind (pres_obsv_pDims dyn) (fun d => ?_)
  refine pres_bind (pres_obsv_pIframeDetect dyn) (fun ifr => ?_)
  refine pres_bind (pres_obsv_pFindAndMark dyn) (fun _ => ?_)
  refine pres_bind (pres_obsv_pJsScrollTo dyn 0) (fun _ => ?_)
  refine pres_bind (pres_obsv_pWait dyn settle) (fun _ => ?_)
  refine pres_bind (pres_obsv_pScrollableStates dyn) (fun before => ?_)
  refine pres_bind (pres_obsv_wheelTimes dyn chunk ww 8) (fun _ => ?_)
  refine pres_bind (pres_obsv_pWait dyn settle) (fun _ => ?_)
  refine pres_bind (pres_obsv_pScrollableStates dyn) (fun after => ?_)
  refine pres_bind (pres_obsv_wheelTimes dyn (-chunk) ww 8) (fun _ => ?_)
  refine pres_bind (pres_obsv_pWait dyn settle) (fun _ => ?_)
  refine pres_bind (pres_obsv_applyBestMark dyn _) (fun _ => ?_)
  refine pres_bind (pres_obsv_pGetState dyn _) (fun st => ?_)
  refine pres_bind (pres_ite _ ?_ (pres_pure _ _)) (fun _ => ?_)
  · exact pres_bind (pres_obsv_scrollToTarget dyn st.2 _ chunk ww settle 150)
      (fun _ => pres_obsv_pWait dyn 500)
  refine pres_bind (pres_obsv_pDisableAnim dyn) (fun _ => pres_pure _ _)

theorem wlOk_setupCore (dyn : Dyn π) (settle : ℕ) (chunk : ℤ) (ww : ℕ) :
    WlOk (setupCore dyn settle chunk ww) := by
  unfold setupCore
  refine wlOk_bind (wlOk_of_pres (fun s => by unfold pDims primRead; split <;> rfl)) (fun d => ?_)
  refine wlOk_bind (wlOk_of_pres (fun s => by unfold pIframeDetect; split <;> rfl)) (fun ifr => ?_)
  refine wlOk_bind (wlOk_of_pres (fun s => by unfold pFindAndMark prim; split <;> rfl)) (fun _ => ?_)
  refine wlOk_bind (wlOk_of_pres_core (by unfold pJsScrollTo; exact pres_prim dyn _ (fun _ => rfl) (fun _ => rfl))) (fun _ => ?_)
  refine wlOk_bind (wlOk_of_pres_core (pres_core_pWait dyn settle)) (fun _ => ?_)
  refine wlOk_bind (wlOk_of_pres (fun s => by unfold pScrollableStates primRead; split <;> rfl)) (fun before => ?_)
  refine wlOk_bind (wlOk_of_pres_core (pres_core_wheelTimes dyn chunk ww 8)) (fun _ => ?_)
  refine wlOk_bind (wlOk_of_pres_core (pres_core_pWait dyn settle)) (fun _ => ?_)
  refine wlOk_bind (wlOk_of_pres (fun s => by unfold pScrollableStates primRead; split <;> rfl)) (fun after => ?_)
  refine wlOk_bind (wlOk_of_pres_core (pres_core_wheelTimes dyn (-chunk) ww 8)) (fun _ => ?_)
  refine wlOk_bind (wlOk_of_pres_core (pres_core_pWait dyn settle)) (fun _ => ?_)
  refine wlOk_bind (wlOk_applyBestMark dyn _) (fun _ => ?_)
  refine wlOk_bind (wlOk_of_pres_core (pres_core_pGetState dyn _)) (fun st => ?_)
  refine wlOk_bind (wlOk_ite _ ?_ (wlOk_pure _)) (fun _ => ?_)
  · exact wlOk_bind (wlOk_scrollToTarget dyn st.2 _ chunk ww settle 150)
      (fun _ => wlOk_of_pres_core (pres_core_pWait dyn 500))
  refine wlOk_bind (wlOk_of_pres (fun s => by unfold pDisableAnim prim; split <;> rfl))
    (fun _ => wlOk_pure _)

theorem nf_setupCore {dyn : Dyn π} (settle : ℕ) (chunk : ℤ) (ww : ℕ)
    (hnf : ∀ n, dyn.fails n = false) :
    Nf (setupCore dyn settle chunk ww) := by
  unfold setupCore
  refine nf_bind (by unfold pDims; exact nf_primRead _ hnf) (fun d => ?_)
  refine nf_bind nf_iframeDetect (fun ifr => ?_)
  refine nf_bind (by unfold pFindAndMark; exact nf_prim _ hnf) (fun _ => ?_)
  refine nf_bind (by unfold pJsScrollTo; exact nf_prim _ hnf) (fun _ => ?_)
  refine nf_bind (by unfold pWait; exact nf_prim _ hnf) (fun _ => ?_)
  refine nf_bind (by unfold pScrollableStates; exact nf_primRead _ hnf) (fun before => ?_)
  refine nf_bind (nf_wheelTimes chunk ww hnf 8) (fun _ => ?_)
  refine nf_bind (by unfold pWait; exact nf_prim _ hnf) (fun _ => ?_)
  refine nf_bind (by unfold pScrollableStates; exact nf_primRead _ hnf) (fun after => ?_)
  refine nf_bind (nf_wheelTimes (-chunk) ww hnf 8) (fun _ => ?_)
  refine nf_bind (by unfold pWait; exact nf_prim _ hnf) (fun _ => ?_)
  refine nf_bind (nf_applyBestMark dyn hnf _) (fun _ => ?_)
  refine nf_bind (by unfold pGetState; exact nf_primRead _ hnf) (fun st => ?_)
  refine nf_bind (nf_ite _ ?_ (nf_pure _)) (fun _ => ?_)
  · exact nf_bind (nf_scrollToTarget st.2 _ chunk ww settle 150 hnf)
      (fun _ => by unfold pWait; exact nf_prim _ hnf)
  refine nf_bind (by unfold pDisableAnim; exact nf_prim _ hnf) (fun _ => nf_pure _)

theorem pres_obsv2_setupPhase (dyn : Dyn π) (settle : ℕ) (chunk : ℤ) (ww : ℕ) :
    Pres (setupPhase dyn settle chunk ww) CapSt.obsv2 := by
  unfold setupPhase
  refine pres_bind (pres_obsv_obsv2 (pres_obsv_setupCore dyn settle chunk ww)) (fun r => ?_)
  refine pres_bind (pres_ite _ (pres_tryIgnore ?_) (pres_pure _ _)) (fun _ => pres_pure _ _)
  unfold pHideOverlays
  exact pres_prim dyn _ (fun _ => rfl) (fun _ => rfl)

theorem wlOk_setupPhase (dyn : Dyn π) (settle : ℕ) (chunk : ℤ) (ww : ℕ) :
    WlOk (setupPhase dyn settle chunk ww) := by
  unfold setupPhase
  refine wlOk_bind (wlOk_setupCore dyn settle chunk ww) (fun r => ?_)
  refine wlOk_bind (wlOk_ite _ (wlOk_tryIgnore ?_) (wlOk_pure _)) (fun _ => wlOk_pure _)
  exact wlOk_of_pres (fun s => by unfold pHideOverlays prim; split <;> rfl)

theorem nf_setupPhase {dyn : Dyn π} (settle : ℕ) (chunk : ℤ) (ww : ℕ)
    (hnf : ∀ n, dyn.fails n = false) :
    Nf (setupPhase dyn settle chunk ww) := by
  unfold setupPhase
  refine nf_bind (nf_setupCore settle chunk ww hnf) (fun r => ?_)
  refine nf_bind (nf_ite _ (nf_tryIgnore _) (nf_pure _)) (fun _ => nf_pure _)

/-- When the setup phase reports no iframe, it leaves the overlay flag
unchanged. -/
theorem setupPhase_overlay (dyn : Dyn π) (settle : ℕ) (chunk : ℤ) (ww : ℕ) :
    ∀ s r s', setupPhase dyn settle chunk ww s = .ok r s' → r.2.2 = false →
      s'.overlayHidden = s.overlayHidden := by
  intro s r s' h hf
  unfold setupPhase at h
  cases h0 : setupCore dyn settle chunk ww s with
  | err t0 => rw [run_bind_err h0] at h; cases h
  | ok r0 t0 =>
      rw [run_bind_ok h0] at h
      have hovl : t0.overlayHidden = s.overlayHidden := by
        have hp := pres_obsv_setupCore dyn settle chunk ww s
        rw [h0, stateOf_ok] at hp
        simp only [CapSt.obsv, Prod.mk.injEq] at hp
        tauto
      by_cases hb : r0.2.2
      · rw [if_pos hb] at h
        cases h1 : tryIgnore (pHideOverlays dyn) t0 with
        | err t1 =>
            have := nf_tryIgnore (pHideOverlays dyn) t0
            rw [h1] at this
            exact this.elim
        | ok a1 t1 =>
            rw [run_bind_ok h1, run_pure] at h
            cases h
            rw [hb] at hf
            cases hf
      · rw [if_neg hb] at h
        rw [run_bind_ok (run_pure () t0), run_pure] at h
        cases h
        exact hovl

theorem pShot_run (dyn : Dyn π) (s : CapSt π) :
    pShot dyn s = .err (bump s) ∨ pShot dyn s = .ok (dyn.shot s.page) (bump s) := by
  unfold pShot primRead
  by_cases h : dyn.fails s.clock <;> simp [h]

theorem appendTile_run (img : Img) (posV : ℤ) (s : CapSt π) :
    appendTile img posV s =
      .ok () {s with tiles := s.tiles ++ [img],
                     tilePositions := s.tilePositions ++ [posV]} := rfl

theorem recordTarget_run (a b : ℤ) (s : CapSt π) :
    recordTarget a b s = .ok () {s with targets := s.targets ++ [(a, b)]} := rfl

theorem recordWheelLoop_run (bound used : ℕ) (s : CapSt π) :
    recordWheelLoop bound used s =
      .ok () {s with wheelLoops := s.wheelLoops ++ [(bound, used)]} := rfl

theorem recordAdvLoop_run (used : ℕ) (s : CapSt π) :
    recordAdvLoop used s = .ok () {s with advLoops := s.advLoops ++ [used]} := rfl

/-- `firstTileHide` never raises (its only browser call is inside a
swallowed `try`) and only touches the page, the counter and the
fixed-hidden flag. -/
theorem firstTileHide_run (dyn : Dyn π) (s : CapSt π) :
    ∃ t, firstTileHide dyn s = .ok () t ∧ t.obsv = s.obsv ∧
      t.wheelLoops = s.wheelLoops ∧ t.tilePositions = s.tilePositions ∧
      t.tiles = s.tiles ∧ t.targets = s.targets ∧ t.advLoops = s.advLoops := by
  unfold firstTileHide
  rw [run_bind_ok (rfl : getS s = .ok s s)]
  by_cases hc : s.tiles.length = 1
  · rw [if_pos hc]
    unfold tryIgnore pHideFixed prim
    by_cases hf : dyn.fails s.clock
    · exact ⟨bump s, by simp [hf], rfl, rfl, rfl, rfl, rfl, rfl⟩
    · exact ⟨{bump s with page := dyn.hideFixed s.page, fixedHidden := true},
        by simp [hf, bump], rfl, rfl, rfl, rfl, rfl, rfl⟩
  · rw [if_neg hc]
    exact ⟨s, rfl, rfl, rfl, rfl, rfl, rfl, rfl⟩

/-- What one tile iteration adds when it appends: one tile, its
position, and the computed `(step_start, target_pos)` pair. -/
def TileStep (dyn : Dyn π) (vh : ℤ) (s s' : CapSt π) : Prop :=
  s'.tiles.length = s.tiles.length + 1 ∧
  s'.tilePositions = s.tilePositions ++ [statePos dyn s] ∧
  s'.targets = s.targets ++ [(statePos dyn s, advanceTarget (statePos dyn s) vh)]

/-- A tile iteration that was cut before appending anything. -/
def NoStep (s s' : CapSt π) : Prop :=
  s'.tiles.length = s.tiles.length ∧ s'.tilePositions = s.tilePositions ∧
  s'.targets = s.targets

/-- How a tile iteration extends the loop-count records. -/
def WlStep (dyn : Dyn π) (s s' : CapSt π) : Prop :=
  s'.wheelLoops = s.wheelLoops ∧ s'.advLoops = s.advLoops ∨
  ∃ used, used ≤ 100 ∧ s'.wheelLoops = s.wheelLoops ++ [(100, used)] ∧
    s'.advLoops = s.advLoops ++ [used] ∧
    ∀ c, (∀ q, pagePos dyn q = c) → used ≤ 15

/-- The outputs a tile iteration never touches. -/
def Frame1 (s s' : CapSt π) : Prop :=
  s'.fallbackShot = s.fallbackShot ∧ s'.savedStitch = s.savedStitch ∧
  s'.overlayHidden = s.overlayHidden

/-- Specification of one tile-loop iteration: it preserves the fallback
and stitch outputs and the overlay flag; it appends either nothing (cut
before the screenshot landed) or exactly one tile with its position and
target; its loop records stay bounded (and stall-bounded on a page whose
reported position never moves); and a `true` continue-signal means the
reported position strictly advanced past the recorded `step_start`. -/
theorem tileBody_spec (dyn : Dyn π) (vh chunk : ℤ) (ww settle : ℕ) (s : CapSt π) :
    match tileBody dyn vh chunk ww settle s with
    | .ok u s' => Frame1 s s' ∧ TileStep dyn vh s s' ∧ WlStep dyn s s' ∧
        (u = true → statePos dyn s < statePos dyn s')
    | .err s' => Frame1 s s' ∧ (NoStep s s' ∨ TileStep dyn vh s s') ∧ WlStep dyn s s' := by
  have hsp1 : (getState (dyn.scrollStateRaw s.page) vh).1 = statePos dyn s :=
    pGetState_fst dyn vh s
  unfold tileBody
  rcases pGetState_run dyn vh s with h1 | h1
  · rw [run_bind_err h1]
    exact ⟨⟨rfl, rfl, rfl⟩, Or.inl ⟨rfl, rfl, rfl⟩, Or.inl ⟨rfl, rfl⟩⟩
  · rw [run_bind_ok h1]
    rcases pShot_run dyn (bump s) with h2 | h2
    · rw [run_bind_err h2]
      exact ⟨⟨rfl, rfl, rfl⟩, Or.inl ⟨rfl, rfl, rfl⟩, Or.inl ⟨rfl, rfl⟩⟩
    · rw [run_bind_ok h2]
      rw [run_bind_ok (appendTile_run _ _ _)]
      obtain ⟨t4, h4, h4o, h4w, h4p, h4t, h4g, h4a⟩ := firstTileHide_run dyn _
      simp only [CapSt.obsv, Prod.mk.injEq] at h4o
      obtain ⟨-, -, -, -, h4fb, h4sv, h4ov⟩ := h4o
      rw [run_bind_ok h4]
      rw [run_bind_ok (recordTarget_run _ _ _)]
      cases h6 : wheelDownLoop dyn vh
          (advanceTarget (getState (dyn.scrollStateRaw s.page) vh).1 vh) chunk ww 100
          (getState (dyn.scrollStateRaw s.page) vh).1 0 0
          {t4 with targets := t4.targets ++
            [((getState (dyn.scrollStateRaw s.page) vh).1,
              advanceTarget (getState (dyn.scrollStateRaw s.page) vh).1 vh)]} with
      | err t6 =>
        rw [run_bind_err h6]
        have hcore := pres_core_wheelDownLoop dyn vh
          (advanceTarget (getState (dyn.scrollStateRaw s.page) vh).1 vh) chunk ww 100
          (getState (dyn.scrollStateRaw s.page) vh).1 0 0
          {t4 with targets := t4.targets ++
            [((getState (dyn.scrollStateRaw s.page) vh).1,
              advanceTarget (getState (dyn.scrollStateRaw s.page) vh).1 vh)]}
        rw [h6, stateOf_err] at hcore
        simp only [CapSt.core, Prod.mk.injEq] at hcore
        obtain ⟨-, -, hov, -, hti, htp, htg, hwl, hal, hfb, hsv⟩ := hcore
        refine ⟨⟨?_, ?_, ?_⟩, Or.inr ⟨?_, ?_, ?_⟩, Or.inl ⟨?_, ?_⟩⟩
        · rw [hfb]; exact h4fb
        · rw [hsv]; exact h4sv
        · rw [hov]; exact h4ov
        · rw [hti]
          show t4.tiles.length = s.tiles.length + 1
          rw [h4t]
          simp [bump]
        · rw [htp]
          show t4.tilePositions = s.tilePositions ++ [statePos dyn s]
          rw [h4p, ← hsp1]
          rfl
        · rw [htg]
          show t4.targets ++ [_] = s.targets ++ [(statePos dyn s, advanceTarget (statePos dyn s) vh)]
          rw [h4g, hsp1]
          rfl
        · rw [hwl]; exact h4w
        · rw [hal]; exact h4a
      | ok u t6 =>
        have hcore := pres_core_wheelDownLoop dyn vh
          (advanceTarget (getState (dyn.scrollStateRaw s.page) vh).1 vh) chunk ww 100
          (getState (dyn.scrollStateRaw s.page) vh).1 0 0
          {t4 with targets := t4.targets ++
            [((getState (dyn.scrollStateRaw s.page) vh).1,
              advanceTarget (getState (dyn.scrollStateRaw s.page) vh).1 vh)]}
        rw [h6, stateOf_ok] at hcore
        simp only [CapSt.core, Prod.mk.injEq] at hcore
        obtain ⟨-, -, hov, -, hti, htp, htg, hwl, hal, hfb, hsv⟩ := hcore
        have hu100 : u ≤ 100 := by
          have := wheelDownLoop_count dyn vh _ chunk ww 100 _ 0 0 _ u t6 h6
          omega
        have hu15 : ∀ c, (∀ q, pagePos dyn q = c) → u ≤ 15 := by
          intro c hp
          have hcs : c ≤ (getState (dyn.scrollStateRaw s.page) vh).1 := by
            rw [hsp1]
            unfold statePos
            rw [hp]
          have := wheelDownLoop_stall dyn vh _ chunk ww c hp 100 _ 0 0 _ u t6 hcs
            (by omega) h6
          omega
        have hFrame : Frame1 s t6 ∧ TileStep dyn vh s
            {t6 with wheelLoops := t6.wheelLoops, advLoops := t6.advLoops} := by
          refine ⟨⟨?_, ?_, ?_⟩, ?_, ?_, ?_⟩
          · rw [hfb]; exact h4fb
          · rw [hsv]; exact h4sv
          · rw [hov]; exact h4ov
          · show t6.tiles.length = s.tiles.length + 1
            rw [hti]
            show t4.tiles.length = s.tiles.length + 1
            rw [h4t]
            simp [bump]
          · show t6.tilePositions = s.tilePositions ++ [statePos dyn s]
            rw [htp]
            show t4.tilePositions = s.tilePositions ++ [statePos dyn s]
            rw [h4p, ← hsp1]
            rfl
          · show t6.targets = s.targets ++ [(statePos dyn s, advanceTarget (statePos dyn s) vh)]
            rw [htg]
            show t4.targets ++ [_] = s.targets ++ [(statePos dyn s, advanceTarget (statePos dyn s) vh)]
            rw [h4g, hsp1]
            rfl
        obtain ⟨hF, hT1, hT2, hT3⟩ := hFrame
        have hwl6 : t6.wheelLoops = s.wheelLoops := by
          rw [hwl]
          exact h4w
        have hal6 : t6.advLoops = s.advLoops := by
          rw [hal]
          exact h4a
        rw [run_bind_ok h6]
        rw [run_bind_ok (recordWheelLoop_run _ _ _)]
        rw [run_bind_ok (recordAdvLoop_run _ _)]
        rcases pJsScrollTo_run dyn
            (advanceTarget (getState (dyn.scrollStateRaw s.page) vh).1 vh)
            {t6 with wheelLoops := t6.wheelLoops ++ [(100, u)],
                     advLoops := t6.advLoops ++ [u]} with h9 | h9
        · rw [run_bind_err h9]
          exact ⟨⟨hF.1, hF.2.1, hF.2.2⟩, Or.inr ⟨hT1, hT2, hT3⟩,
            Or.inr ⟨u, hu100, by simp [hwl6, bump], by simp [hal6, bump], hu15⟩⟩
        · rw [run_bind_ok h9]
          rcases pWait_run dyn settle
              {bump {t6 with wheelLoops := t6.wheelLoops ++ [(100, u)],
                             advLoops := t6.advLoops ++ [u]} with
                page := dyn.jsScrollTo
                  (advanceTarget (getState (dyn.scrollStateRaw s.page) vh).1 vh)
                  {t6 with wheelLoops := t6.wheelLoops ++ [(100, u)],
                           advLoops := t6.advLoops ++ [u]}.page} with h10 | h10
          · rw [run_bind_err h10]
            exact ⟨⟨hF.1, hF.2.1, hF.2.2⟩, Or.inr ⟨hT1, hT2, hT3⟩,
              Or.inr ⟨u, hu100, by simp [hwl6, bump], by simp [hal6, bump], hu15⟩⟩
          · rw [run_bind_ok h10]
            rcases pGetState_run dyn vh
                {bump {bump {t6 with wheelLoops := t6.wheelLoops ++ [(100, u)],
                                     advLoops := t6.advLoops ++ [u]} with
                  page := dyn.jsScrollTo
                    (advanceTarget (getState (dyn.scrollStateRaw s.page) vh).1 vh)
                    {t6 with wheelLoops := t6.wheelLoops ++ [(100, u)],
                             advLoops := t6.advLoops ++ [u]}.page} with
                  page := dyn.waitMs settle
                    (dyn.jsScrollTo
                      (advanceTarget (getState (dyn.scrollStateRaw s.page) vh).1 vh)
                      {t6 with wheelLoops := t6.wheelLoops ++ [(100, u)],
                               advLoops := t6.advLoops ++ [u]}.page)} with h11 | h11
            · rw [run_bind_err h11]
              exact ⟨⟨hF.1, hF.2.1, hF.2.2⟩, Or.inr ⟨hT1, hT2, hT3⟩,
                Or.inr ⟨u, hu100, by simp [hwl6, bump], by simp [hal6, bump], hu15⟩⟩
            · rw [run_bind_ok h11]
              rw [run_pure]
              have hlast : ∀ tL : CapSt π,
                  decide ((getState (dyn.scrollStateRaw tL.page) vh).1 >
                    (getState (dyn.scrollStateRaw s.page) vh).1) = true →
                  statePos dyn s < statePos dyn (bump tL) := by
                intro tL hd
                have hgt := of_decide_eq_true hd
                rw [pGetState_fst dyn vh tL, pGetState_fst dyn vh s] at hgt
                exact hgt
              exact ⟨⟨hF.1, hF.2.1, hF.2.2⟩, ⟨hT1, hT2, hT3⟩,
                Or.inr ⟨u, hu100, by simp [hwl6, bump], by simp [hal6, bump], hu15⟩,
                hlast _⟩

/-- All recorded advance targets follow the overlap formula. -/
def GoodTargets (vh : ℤ) (s : CapSt π) : Prop :=
  ∀ pr ∈ s.targets, pr.2 = advanceTarget pr.1 vh

/-- All recorded wheel-loop counts are within their bounds. -/
def GoodWheel (s : CapSt π) : Prop :=
  ∀ pr ∈ s.wheelLoops, pr.2 ≤ pr.1

/-- All recorded advance-loop counts are at most `bound`. -/
def GoodAdv (bound : ℕ) (s : CapSt π) : Prop :=
  ∀ n ∈ s.advLoops, n ≤ bound

/-- Main invariants of the tile loop, for failing and succeeding runs
alike: the fallback/stitch/overlay outputs are untouched, positions are
only appended, the tile count grows by at most `fuel` (and never
shrinks), tile/position counts stay equal, and the target and
loop-count invariants are preserved. -/
theorem tileLoop_spec (dyn : Dyn π) (vh chunk : ℤ) (ww settle : ℕ) :
    ∀ fuel s,
      Frame1 s ((tileLoop dyn vh chunk ww settle fuel s).stateOf) ∧
      (∃ t, ((tileLoop dyn vh chunk ww settle fuel s).stateOf).tilePositions =
        s.tilePositions ++ t) ∧
      ((tileLoop dyn vh chunk ww settle fuel s).stateOf).tiles.length ≤
        s.tiles.length + fuel ∧
      s.tiles.length ≤ ((tileLoop dyn vh chunk ww settle fuel s).stateOf).tiles.length ∧
      (s.tiles.length = s.tilePositions.length →
        ((tileLoop dyn vh chunk ww settle fuel s).stateOf).tiles.length =
          ((tileLoop dyn vh chunk ww settle fuel s).stateOf).tilePositions.length) ∧
      (GoodTargets vh s → GoodTargets vh ((tileLoop dyn vh chunk ww settle fuel s).stateOf)) ∧
      (GoodWheel s → GoodWheel ((tileLoop dyn vh chunk ww settle fuel s).stateOf)) ∧
      (∀ c, (∀ q, pagePos dyn q = c) → GoodAdv 15 s →
        GoodAdv 15 ((tileLoop dyn vh chunk ww settle fuel s).stateOf)) := by
  intro fuel
  induction fuel with
  | zero =>
      intro s
      exact ⟨⟨rfl, rfl, rfl⟩, ⟨[], by simp [tileLoop, run_pure, Res.stateOf]⟩,
        by simp [tileLoop, run_pure, Res.stateOf],
        by simp [tileLoop, run_pure, Res.stateOf],
        fun h => by simpa [tileLoop, run_pure, Res.stateOf] using h,
        fun h => by simpa [tileLoop, run_pure, Res.stateOf] using h,
        fun h => by simpa [tileLoop, run_pure, Res.stateOf] using h,
        fun c hc h => by simpa [tileLoop, run_pure, Res.stateOf] using h⟩
  | succ n ih =>
      intro s
      have hbody := tileBody_spec dyn vh chunk ww settle s
      show Frame1 s ((tileLoop dyn vh chunk ww settle (n+1) s).stateOf) ∧ _
      unfold tileLoop
      cases hb : tileBody dyn vh chunk ww settle s with
      | err s1 =>
          rw [hb] at hbody
          obtain ⟨hfr, hstep, hwl⟩ := hbody
          rw [run_bind_err hb, stateOf_err]
          refine ⟨hfr, ?_, ?_, ?_, ?_, ?_, ?_, ?_⟩
          · rcases hstep with ⟨-, hp, -⟩ | ⟨-, hp, -⟩
            · exact ⟨[], by simp [hp]⟩
            · exact ⟨[statePos dyn s], by simp [hp]⟩
          · rcases hstep with ⟨hl, -, -⟩ | ⟨hl, -, -⟩ <;> omega
          · rcases hstep with ⟨hl, -, -⟩ | ⟨hl, -, -⟩ <;> omega
          · intro he
            rcases hstep with ⟨hl, hp, -⟩ | ⟨hl, hp, -⟩ <;> simp [hl, hp, he]
          · intro hg pr hpr
            rcases hstep with ⟨-, -, ht⟩ | ⟨-, -, ht⟩
            · rw [ht] at hpr; exact hg pr hpr
            · rw [ht] at hpr
              rcases List.mem_append.mp hpr with hh | hh
              · exact hg pr hh
              · simp at hh
                simp [hh]
          · intro hg pr hpr
            rcases hwl with ⟨hw, -⟩ | ⟨u, hu, hw, -, -⟩
            · rw [hw] at hpr; exact hg pr hpr
            · rw [hw] at hpr
              rcases List.mem_append.mp hpr with hh | hh
              · exact hg pr hh
              · simp at hh
                simp [hh, hu]
          · intro c hc hg m hm
            rcases hwl with ⟨-, ha⟩ | ⟨u, hu, -, ha, h15⟩
            · rw [ha] at hm; exact hg m hm
            · rw [ha] at hm
              rcases List.mem_append.mp hm with hh | hh
              · exact hg m hh
              · simp at hh
                subst hh
                exact h15 c hc
      | ok u s1 =>
          rw [hb] at hbody
          obtain ⟨hfr, hstep, hwl, hcont⟩ := hbody
          rw [run_bind_ok hb]
          have key : ∀ s2, Frame1 s1 s2 →
              (∃ t, s2.tilePositions = s1.tilePositions ++ t) →
              s2.tiles.length ≤ s1.tiles.length + n →
              s1.tiles.length ≤ s2.tiles.length →
              (s1.tiles.length = s1.tilePositions.length →
                s2.tiles.length = s2.tilePositions.length) →
              (GoodTargets vh s1 → GoodTargets vh s2) →
              (GoodWheel s1 → GoodWheel s2) →
              (∀ c, (∀ q, pagePos dyn q = c) → GoodAdv 15 s1 → GoodAdv 15 s2) →
              Frame1 s s2 ∧
              (∃ t, s2.tilePositions = s.tilePositions ++ t) ∧
              s2.tiles.length ≤ s.tiles.length + (n + 1) ∧
              s.tiles.length ≤ s2.tiles.length ∧
              (s.tiles.length = s.tilePositions.length →
                s2.tiles.length = s2.tilePositions.length) ∧
              (GoodTargets vh s → GoodTargets vh s2) ∧
              (GoodWheel s → GoodWheel s2) ∧
              (∀ c, (∀ q, pagePos dyn q = c) → GoodAdv 15 s → GoodAdv 15 s2) := by
            intro s2 f2 p2 le2 ge2 eq2 gt2 gw2 ga2
            obtain ⟨hl1, hp1, hg1⟩ := hstep
            refine ⟨⟨f2.1.trans hfr.1, f2.2.1.trans hfr.2.1, f2.2.2.trans hfr.2.2⟩,
              ?_, ?_, ?_, ?_, ?_, ?_, ?_⟩
            · obtain ⟨t, ht⟩ := p2
              exact ⟨[statePos dyn s] ++ t, by rw [ht, hp1, List.append_assoc]⟩
            · omega
            · omega
            · intro he
              apply eq2
              rw [hl1, hp1, he]
              simp
            · intro hg
              apply gt2
              intro pr hpr
              rw [hg1] at hpr
              rcases List.mem_append.mp hpr with hh | hh
              · exact hg pr hh
              · simp at hh
                simp [hh]
            · intro hg
              apply gw2
              intro pr hpr
              rcases hwl with ⟨hw, -⟩ | ⟨u0, hu, hw, -, -⟩
              · rw [hw] at hpr; exact hg pr hpr
              · rw [hw] at hpr
                rcases List.mem_append.mp hpr with hh | hh
                · exact hg pr hh
                · simp at hh
                  simp [hh, hu]
            · intro c hc hg
              apply ga2 c hc
              intro m hm
              rcases hwl with ⟨-, ha⟩ | ⟨u0, hu, -, ha, h15⟩
              · rw [ha] at hm; exact hg m hm
              · rw [ha] at hm
                rcases List.mem_append.mp hm with hh | hh
                · exact hg m hh
                · simp at hh
                  subst hh
                  exact h15 c hc
          cases u with
          | false =>
              rw [if_neg (by simp)]
              rw [run_pure, stateOf_ok]
              exact key s1 ⟨rfl, rfl, rfl⟩ ⟨[], by simp⟩ (by omega) (by omega)
                (fun h => h) (fun h => h) (fun h => h) (fun c hc h => h)
          | true =>
              rw [if_pos rfl]
              obtain ⟨f2, p2, le2, ge2, eq2, gt2, gw2, ga2⟩ := ih s1
              exact key _ f2 p2 le2 ge2 eq2 gt2 gw2 ga2

theorem chain'_append_single {l : List ℤ} {a : ℤ}
    (h1 : List.Chain' (· ≤ ·) l) (h2 : ∀ x ∈ l.getLast?, x ≤ a) :
    List.Chain' (· ≤ ·) (l ++ [a]) := by
  rw [List.chain'_append]
  refine ⟨h1, List.chain'_singleton a, ?_⟩
  intro x hx y hy
  simp only [List.head?_cons, Option.mem_def, Option.some.injEq] at hy
  subst hy
  exact h2 x hx

/-- The tile loop keeps the recorded positions sorted: entering with a
sorted list whose last element is at most the current reported position,
every run (failing or not) leaves a sorted list. -/
theorem tileLoop_chain (dyn : Dyn π) (vh chunk : ℤ) (ww settle : ℕ) :
    ∀ fuel s, List.Chain' (· ≤ ·) s.tilePositions →
      (∀ l ∈ s.tilePositions.getLast?, l ≤ statePos dyn s) →
      List.Chain' (· ≤ ·)
        ((tileLoop dyn vh chunk ww settle fuel s).stateOf).tilePositions := by
  intro fuel
  induction fuel with
  | zero =>
      intro s hc hl
      simpa [tileLoop, run_pure, Res.stateOf] using hc
  | succ n ih =>
      intro s hc hl
      have hbody := tileBody_spec dyn vh chunk ww settle s
      unfold tileLoop
      cases hb : tileBody dyn vh chunk ww settle s with
      | err s1 =>
          rw [hb] at hbody
          obtain ⟨-, hstep, -⟩ := hbody
          rw [run_bind_err hb, stateOf_err]
          rcases hstep with ⟨-, hp, -⟩ | ⟨-, hp, -⟩
          · rw [hp]; exact hc
          · rw [hp]; exact chain'_append_single hc hl
      | ok u s1 =>
          rw [hb] at hbody
          obtain ⟨-, ⟨-, hp1, -⟩, -, hcont⟩ := hbody
          rw [run_bind_ok hb]
          have hc1 : List.Chain' (· ≤ ·) s1.tilePositions := by
            rw [hp1]; exact chain'_append_single hc hl
          cases u with
          | false =>
              rw [if_neg (by simp), run_pure, stateOf_ok]
              exact hc1
          | true =>
              rw [if_pos rfl]
              apply ih s1 hc1
              intro l hls
              rw [hp1, List.getLast?_concat] at hls
              simp only [Option.mem_def, Option.some.injEq] at hls
              subst hls
              exact le_of_lt (hcont rfl)

/-- When the tile loop starts with an empty position list, either it
ends empty (the very first read or screenshot failed) or its first
recorded position is the reported position at loop entry. -/
theorem tileLoop_head (dyn : Dyn π) (vh chunk : ℤ) (ww settle : ℕ) :
    ∀ fuel s, s.tilePositions = [] →
      ((tileLoop dyn vh chunk ww settle fuel s).stateOf).tilePositions = [] ∨
      ((tileLoop dyn vh chunk ww settle fuel s).stateOf).tilePositions.head? =
        some (statePos dyn s) := by
  intro fuel s hs
  cases fuel with
  | zero =>
      left
      simpa [tileLoop, run_pure, Res.stateOf] using hs
  | succ n =>
      have hbody := tileBody_spec dyn vh chunk ww settle s
      unfold tileLoop
      cases hb : tileBody dyn vh chunk ww settle s with
      | err s1 =>
          rw [hb] at hbody
          obtain ⟨-, hstep, -⟩ := hbody
          rw [run_bind_err hb, stateOf_err]
          rcases hstep with ⟨-, hp, -⟩ | ⟨-, hp, -⟩
          · left; rw [hp]; exact hs
          · right; rw [hp, hs]; rfl
      | ok u s1 =>
          rw [hb] at hbody
          obtain ⟨-, ⟨-, hp1, -⟩, -, -⟩ := hbody
          rw [run_bind_ok hb]
          have hp1' : s1.tilePositions = [statePos dyn s] := by
            rw [hp1, hs]; rfl
          cases u with
          | false =>
              right
              rw [if_neg (by simp), run_pure, stateOf_ok, hp1']
              rfl
          | true =>
              right
              rw [if_pos rfl]
              obtain ⟨-, ⟨t, ht⟩, -⟩ := tileLoop_spec dyn vh chunk ww settle n s1
              rw [ht, hp1']
              rfl

/-- A successful tile loop with at least one unit of fuel captures at
least one tile. -/
theorem tileLoop_ok_tiles (dyn : Dyn π) (vh chunk : ℤ) (ww settle : ℕ) :
    ∀ fuel s u s', tileLoop dyn vh chunk ww settle fuel s = .ok u s' →
      1 ≤ fuel → s.tiles.length + 1 ≤ s'.tiles.length := by
  intro fuel s u s' h hf
  cases fuel with
  | zero => omega
  | succ n =>
      have hbody := tileBody_spec dyn vh chunk ww settle s
      unfold tileLoop at h
      cases hb : tileBody dyn vh chunk ww settle s with
      | err s1 => rw [run_bind_err hb] at h; cases h
      | ok u1 s1 =>
          rw [hb] at hbody
          obtain ⟨-, ⟨hl1, -, -⟩, -, -⟩ := hbody
          rw [run_bind_ok hb] at h
          cases u1 with
          | false =>
              rw [if_neg (by simp), run_pure] at h
              cases h
              omega
          | true =>
              rw [if_pos rfl] at h
              obtain ⟨-, -, -, hge, -⟩ := tileLoop_spec dyn vh chunk ww settle n s1
              rw [h, stateOf_ok] at hge
              omega

theorem nf_firstTileHide (dyn : Dyn π) : Nf (firstTileHide dyn) := by
  intro s
  obtain ⟨t, ht, -⟩ := firstTileHide_run dyn s
  rw [ht]
  trivial

theorem nf_tileBody {dyn : Dyn π} (vh chunk : ℤ) (ww settle : ℕ)
    (hnf : ∀ n, dyn.fails n = false) : Nf (tileBody dyn vh chunk ww settle) := by
  unfold tileBody
  refine nf_bind (by unfold pGetState; exact nf_primRead _ hnf) (fun sp => ?_)
  refine nf_bind (by unfold pShot; exact nf_primRead _ hnf) (fun img => ?_)
  refine nf_bind (nf_modifyS _) (fun _ => ?_)
  refine nf_bind (nf_firstTileHide dyn) (fun _ => ?_)
  refine nf_bind (nf_modifyS _) (fun _ => ?_)
  refine nf_bind (nf_wheelDownLoop vh _ chunk ww hnf 100 sp.1 0 0) (fun used => ?_)
  refine nf_bind (nf_modifyS _) (fun _ => ?_)
  refine nf_bind (nf_modifyS _) (fun _ => ?_)
  refine nf_bind (by unfold pJsScrollTo; exact nf_prim _ hnf) (fun _ => ?_)
  refine nf_bind (by unfold pWait; exact nf_prim _ hnf) (fun _ => ?_)
  refine nf_bind (by unfold pGetState; exact nf_primRead _ hnf) (fun ep => nf_pure _)

theorem nf_tileLoop {dyn : Dyn π} (vh chunk : ℤ) (ww settle : ℕ)
    (hnf : ∀ n, dyn.fails n = false) :
    ∀ fuel, Nf (tileLoop dyn vh chunk ww settle fuel) := by
  intro fuel
  induction fuel with
  | zero => exact nf_pure _
  | succ n ih =>
      unfold tileLoop
      exact nf_bind (nf_tileBody vh chunk ww settle hnf) (fun cont =>
        nf_ite _ ih (nf_pure _))

/-- The restore phase never raises: both restoration steps sit in
swallowed `try` blocks. -/
theorem nf_restorePhase (dyn : Dyn π) (ifr : Bool) : Nf (restorePhase dyn ifr) := by
  unfold restorePhase
  refine nf_bind (nf_tryIgnore _) (fun _ => nf_ite _ (nf_tryIgnore _) (nf_pure _))

theorem pres_obsv3_restorePhase (dyn : Dyn π) (ifr : Bool) :
    Pres (restorePhase dyn ifr) CapSt.obsv3 := by
  unfold restorePhase
  refine pres_bind (pres_tryIgnore ?_) (fun _ => pres_ite _ (pres_tryIgnore ?_) (pres_pure _ _))
  · refine pres_bind ?_ (fun _ => ?_)
    · unfold pShowFixed; exact pres_prim dyn _ (fun _ => rfl) (fun _ => rfl)
    · unfold pRemoveAnimStyle; exact pres_prim dyn _ (fun _ => rfl) (fun _ => rfl)
  · unfold pRestoreOverlays; exact pres_prim dyn _ (fun _ => rfl) (fun _ => rfl)

/-- Under a failure-free schedule the restore phase re-shows fixed
elements, removes the animation-freezing style, restores overlays on
the iframe path, and touches nothing else. -/
theorem restore_flags {dyn : Dyn π} (hnf : ∀ n, dyn.fails n = false)
    (ifr : Bool) (s : CapSt π) :
    ∃ t, restorePhase dyn ifr s = .ok () t ∧ t.fixedHidden = false ∧
      t.noAnim = false ∧ t.overlayHidden = (if ifr then false else s.overlayHidden) ∧
      t.marked = s.marked := by
  unfold restorePhase tryIgnore pShowFixed pRemoveAnimStyle pRestoreOverlays prim
  cases ifr <;>
    simp [hnf, run_bind, run_pure, bump, Res.stateOf]

/-- The finish phase leaves the tile lists, targets, loop records and
stabilization flags untouched. -/
theorem pres_obsv4_finishPhase (dyn : Dyn π) (vh : ℤ) (path : ρ) :
    Pres (finishPhase dyn vh path) CapSt.obsv4 := by
  unfold finishPhase
  refine pres_bind (pres_getS _) (fun s0 => ?_)
  refine pres_ite _ ?_ ?_
  · refine pres_bind ?_ (fun _ => pres_bind (pres_tryIgnore ?_) (fun _ => pres_pure _ _))
    · unfold pShotToPath; exact pres_prim dyn _ (fun _ => rfl) (fun _ => rfl)
    · unfold pClearMarks; exact pres_prim dyn _ (fun _ => rfl) (fun _ => rfl)
  · refine pres_bind (pres_modifyS _ (fun _ => rfl))
      (fun _ => pres_bind (pres_tryIgnore ?_) (fun _ => pres_pure _ _))
    unfold pClearMarks; exact pres_prim dyn _ (fun _ => rfl) (fun _ => rfl)

/-- With captured tiles present, the finish phase always returns the
path, stitches, and never takes the fallback branch — even when the
marker-clearing call fails (it is swallowed). -/
theorem finish_nonempty (dyn : Dyn π) (vh : ℤ) (path : ρ) (s : CapSt π)
    (hne : s.tiles ≠ []) :
    ∃ t, finishPhase dyn vh path s = .ok path t ∧
      t.fallbackShot = s.fallbackShot ∧
      t.savedStitch = stitchTiles s.tilePositions s.tiles vh ∧
      t.tilePositions = s.tilePositions ∧ t.tiles = s.tiles := by
  unfold finishPhase
  rw [run_bind_ok (rfl : getS s = .ok s s)]
  rw [if_neg (by simpa [List.isEmpty_iff] using hne)]
  rw [run_bind_ok (rfl : setStitch (stitchTiles s.tilePositions s.tiles vh) s =
    .ok () {s with savedStitch := stitchTiles s.tilePositions s.tiles vh})]
  unfold tryIgnore pClearMarks prim
  by_cases hf : dyn.fails {s with savedStitch := stitchTiles s.tilePositions s.tiles vh}.clock <;>
    simp [hf, run_bind, run_pure, bump, Res.stateOf]

/-- With no tiles captured and a failure-free schedule, the finish phase
writes the single fallback screenshot to the path and returns the path. -/
theorem finish_empty {dyn : Dyn π} (hnf : ∀ n, dyn.fails n = false)
    (vh : ℤ) (path : ρ) (s : CapSt π) (he : s.tiles = []) :
    ∃ t, finishPhase dyn vh path s = .ok path t ∧
      t.fallbackShot = true ∧ t.savedStitch = s.savedStitch ∧ t.marked = false := by
  unfold finishPhase
  rw [run_bind_ok (rfl : getS s = .ok s s)]
  rw [if_pos (by simp [he])]
  unfold pShotToPath tryIgnore pClearMarks prim
  simp [hnf, run_bind, run_pure, bump, Res.stateOf]

/-- With tiles present and a failure-free schedule, the finish phase
also clears the scroll-root marker. -/
theorem finish_nonempty_marked {dyn : Dyn π} (hnf : ∀ n, dyn.fails n = false)
    (vh : ℤ) (path : ρ) (s : CapSt π) (hne : s.tiles ≠ []) :
    ∃ t, finishPhase dyn vh path s = .ok path t ∧ t.marked = false := by
  unfold finishPhase
  rw [run_bind_ok (rfl : getS s = .ok s s)]
  rw [if_neg (by simpa [List.isEmpty_iff] using hne)]
  rw [run_bind_ok (rfl : setStitch (stitchTiles s.tilePositions s.tiles vh) s =
    .ok () {s with savedStitch := stitchTiles s.tilePositions s.tiles vh})]
  unfold tryIgnore pClearMarks prim
  simp [hnf, run_bind, run_pure, bump, Res.stateOf]

theorem goodWheel_of_append {t : CapSt π} {w0 ext : List (ℕ × ℕ)}
    (h : t.wheelLoops = w0 ++ ext) (h0 : ∀ pr ∈ w0, pr.2 ≤ pr.1)
    (hb : ∀ pr ∈ ext, pr.2 ≤ pr.1) : GoodWheel t := by
  intro pr hpr
  rw [h] at hpr
  rcases List.mem_append.mp hpr with hh | hh
  · exact h0 pr hh
  · exact hb pr hh

/-- Run-wide guarantees of the capture, for every page model and every
failure schedule: recorded positions are sorted; under a page that
honors scroll-to-top, the first recorded position is 0; the number of
tiles never exceeds `max_tiles`; the tile and position lists always have
equal length; every bounded wheel loop used at most its bound; on a page
whose reported position never moves, every advance loop stalls within 15
attempts; a successful run returns the output path, and with
`max_tiles ≥ 1` it captured at least one tile and never took the
zero-tiles fallback; a failing run never took the fallback either. -/
theorem pShotToPath_run (dyn : Dyn π) (s : CapSt π) :
    pShotToPath dyn s = .err (bump s) ∨
    pShotToPath dyn s = .ok () {bump s with fallbackShot := true} := by
  unfold pShotToPath
  exact prim_run dyn _ s

/-- The finish phase can only return the output path. -/
theorem finish_ret (dyn : Dyn π) (vh : ℤ) (path : ρ) :
    ∀ s v t, finishPhase dyn vh path s = .ok v t → v = path := by
  intro s v t h
  unfold finishPhase at h
  rw [run_bind_ok (rfl : getS s = .ok s s)] at h
  by_cases he : s.tiles.isEmpty
  · rw [if_pos he] at h
    rcases pShotToPath_run dyn s with hs | hs
    · rw [run_bind_err hs] at h; cases h
    · rw [run_bind_ok hs] at h
      cases h1 : tryIgnore (pClearMarks dyn) {bump s with fallbackShot := true} with
      | err t1 =>
          have := nf_tryIgnore (pClearMarks dyn) {bump s with fallbackShot := true}
          rw [h1] at this
          exact this.elim
      | ok a t1 =>
          rw [run_bind_ok h1, run_pure] at h
          cases h
          rfl
  · rw [if_neg he] at h
    rw [run_bind_ok (rfl : setStitch (stitchTiles s.tilePositions s.tiles vh) s =
      .ok () {s with savedStitch := stitchTiles s.tilePositions s.tiles vh})] at h
    cases h1 : tryIgnore (pClearMarks dyn)
        {s with savedStitch := stitchTiles s.tilePositions s.tiles vh} with
    | err t1 =>
        have := nf_tryIgnore (pClearMarks dyn)
          {s with savedStitch := stitchTiles s.tilePositions s.tiles vh}
        rw [h1] at this
        exact this.elim
    | ok a t1 =>
        rw [run_bind_ok h1, run_pure] at h
        cases h
        rfl

theorem capture_spec (dyn : Dyn π) (p : π) (path : ρ) (settle : ℕ) (chunk : ℤ)
    (maxT : ℤ) (ww : ℕ) :
    List.Chain' (· ≤ ·) ((runCapture dyn p path settle chunk maxT ww).stateOf).tilePositions ∧
    ((∀ q, pagePos dyn (dyn.jsScrollTo 0 q) = 0) →
     (∀ ms q, pagePos dyn (dyn.waitMs ms q) = pagePos dyn q) →
      ((runCapture dyn p path settle chunk maxT ww).stateOf).tilePositions = [] ∨
      ((runCapture dyn p path settle chunk maxT ww).stateOf).tilePositions.head? = some 0) ∧
    ((runCapture dyn p path settle chunk maxT ww).stateOf).tiles.length ≤ (max 0 maxT).toNat ∧
    ((runCapture dyn p path settle chunk maxT ww).stateOf).tiles.length =
      ((runCapture dyn p path settle chunk maxT ww).stateOf).tilePositions.length ∧
    GoodWheel ((runCapture dyn p path settle chunk maxT ww).stateOf) ∧
    (∀ c, (∀ q, pagePos dyn q = c) →
      GoodAdv 15 ((runCapture dyn p path settle chunk maxT ww).stateOf)) ∧
    (match runCapture dyn p path settle chunk maxT ww with
     | .ok v t => v = path ∧ (1 ≤ maxT → t.tiles ≠ [] ∧ t.fallbackShot = false)
     | .err t => t.fallbackShot = false) := by
  unfold runCapture captureFullPageWheel
  obtain ⟨extA, hextA, hbndA⟩ := wlOk_setupPhase dyn settle chunk ww (initSt p)
  have hobsA := pres_obsv2_setupPhase dyn settle chunk ww (initSt p)
  cases hA : setupPhase dyn settle chunk ww (initSt p) with
  | err t =>
      rw [hA, stateOf_err] at hobsA hextA
      simp only [CapSt.obsv2, Prod.mk.injEq] at hobsA
      obtain ⟨hti, htp, -, hta, hfb, -⟩ := hobsA
      rw [run_bind_err hA, stateOf_err]
      refine ⟨?_, ?_, ?_, ?_, ?_, ?_, ?_⟩
      · rw [htp]; exact List.chain'_nil
      · intro _ _; left; exact htp
      · rw [hti]; simp [initSt]
      · rw [hti, htp]; rfl
      · exact goodWheel_of_append hextA (by simp [initSt]) hbndA
      · intro c hc
        show GoodAdv 15 t
        intro m hm
        rw [hta] at hm
        simp [initSt] at hm
      · show t.fallbackShot = false
        exact hfb
  | ok r t =>
      rw [hA, stateOf_ok] at hobsA hextA
      simp only [CapSt.obsv2, Prod.mk.injEq] at hobsA
      obtain ⟨htiA, htpA, -, htaA, hfbA, -⟩ := hobsA
      have hgwA : GoodWheel t := goodWheel_of_append hextA (by simp [initSt]) hbndA
      rw [run_bind_ok hA]
      obtain ⟨extB, hextB, hbndB⟩ := wlOk_backToTop dyn r.2.1 chunk ww settle t
      have hobsB := pres_obsv_backToTop dyn r.2.1 chunk ww settle t
      cases hB : backToTopPhase dyn r.2.1 chunk ww settle t with
      | err t2 =>
          rw [hB, stateOf_err] at hobsB hextB
          simp only [CapSt.obsv, Prod.mk.injEq] at hobsB
          obtain ⟨hti, htp, -, hta, hfb, -, -⟩ := hobsB
          rw [run_bind_err hB, stateOf_err]
          refine ⟨?_, ?_, ?_, ?_, ?_, ?_, ?_⟩
          · rw [htp, htpA]; exact List.chain'_nil
          · intro _ _; left; rw [htp]; exact htpA
          · rw [hti, htiA]; simp [initSt]
          · rw [hti, htp, htiA, htpA]; rfl
          · exact goodWheel_of_append hextB (fun pr hpr => hgwA pr hpr) hbndB
          · intro c hc m hm
            rw [hta, htaA] at hm
            simp [initSt] at hm
          · show t2.fallbackShot = false
            rw [hfb, hfbA]
            rfl
      | ok u2 t2 =>
          rw [hB, stateOf_ok] at hobsB hextB
          simp only [CapSt.obsv, Prod.mk.injEq] at hobsB
          obtain ⟨htiB, htpB, -, htaB, hfbB, -, -⟩ := hobsB
          have hgwB : GoodWheel t2 :=
            goodWheel_of_append hextB (fun pr hpr => hgwA pr hpr) hbndB
          rw [run_bind_ok hB]
          rw [run_bind_ok (rfl : resetTiles t2 =
            .ok () {t2 with tiles := [], tilePositions := []})]
          obtain ⟨hfrL, ⟨tL, htL⟩, hleL, hgeL, heqL, -, hgwL, hgaL⟩ :=
            tileLoop_spec dyn r.2.1 chunk ww settle (max 0 maxT).toNat
              {t2 with tiles := [], tilePositions := []}
          have hchainL := tileLoop_chain dyn r.2.1 chunk ww settle (max 0 maxT).toNat
            {t2 with tiles := [], tilePositions := []} (by simp) (by simp)
          have hheadL := tileLoop_head dyn r.2.1 chunk ww settle (max 0 maxT).toNat
            {t2 with tiles := [], tilePositions := []} rfl
          cases hL : tileLoop dyn r.2.1 chunk ww settle (max 0 maxT).toNat
              {t2 with tiles := [], tilePositions := []} with
          | err t3 =>
              rw [hL, stateOf_err] at hfrL htL hleL hgeL heqL hgwL hgaL hchainL hheadL
              rw [run_bind_err hL, stateOf_err]
              refine ⟨hchainL, ?_, ?_, ?_, ?_, ?_, ?_⟩
              · intro h1 h2
                rcases hheadL with hh | hh
                · left; exact hh
                · right
                  rw [hh]
                  show some (statePos dyn t2) = some 0
                  rw [backToTop_pos dyn r.2.1 chunk ww settle h1 h2 t u2 t2 hB]
              · simpa using hleL
              · exact heqL (by simp)
              · exact hgwL hgwB
              · intro c hc
                refine hgaL c hc ?_
                intro m hm
                simp only [htaB, htaA] at hm
                simp [initSt] at hm
              · show t3.fallbackShot = false
                rw [hfrL.1]
                show t2.fallbackShot = false
                rw [hfbB, hfbA]
                rfl
          | ok u3 t3 =>
              rw [hL, stateOf_ok] at hfrL htL hleL hgeL heqL hgwL hgaL hchainL hheadL
              rw [run_bind_ok hL]
              obtain ⟨t4, hR, hRo⟩ :=
                (fun s => by
                  obtain ⟨a, t4, h4⟩ := nf_ok (nf_restorePhase dyn r.2.2) s
                  cases a
                  exact ⟨t4, h4, by
                    have := pres_obsv3_restorePhase dyn r.2.2 s
                    rw [h4, stateOf_ok] at this
                    exact this⟩ :
                  ∀ s : CapSt π, ∃ t4, restorePhase dyn r.2.2 s = .ok () t4 ∧
                    t4.obsv3 = s.obsv3) t3
              simp only [CapSt.obsv3, Prod.mk.injEq] at hRo
              obtain ⟨hRti, hRtp, -, hRwl, hRal, hRfb, -, -⟩ := hRo
              rw [run_bind_ok hR]
              by_cases hne : t4.tiles = []
              · -- zero tiles reached the finish phase (only when maxT ≤ 0)
                have hml : t3.tiles.length = 0 := by
                  have hne3 := hne
                  rw [hRti] at hne3
                  simp [hne3]
                have hmaxT : ¬ 1 ≤ maxT := by
                  intro hge1
                  have := tileLoop_ok_tiles dyn r.2.1 chunk ww settle
                    (max 0 maxT).toNat _ u3 t3 hL (by omega)
                  simp at this
                  omega
                have hfin := pres_obsv4_finishPhase dyn r.2.1 path t4
                have hforig : t4.fallbackShot = false := by
                  rw [hRfb, hfrL.1]
                  show t2.fallbackShot = false
                  rw [hfbB, hfbA]
                  rfl
                cases hF : finishPhase dyn r.2.1 path t4 with
                | err t5 =>
                    rw [hF, stateOf_err] at hfin
                    simp only [CapSt.obsv4, Prod.mk.injEq] at hfin
                    obtain ⟨hFti, hFtp, -, hFwl, hFal, -⟩ := hfin
                    rw [stateOf_err]
                    refine ⟨?_, ?_, ?_, ?_, ?_, ?_, ?_⟩
                    · rw [hFtp, hRtp]; exact hchainL
                    · intro h1 h2
                      rw [hFtp, hRtp]
                      rcases hheadL with hh | hh
                      · left; exact hh
                      · right
                        rw [hh]
                        show some (statePos dyn t2) = some 0
                        rw [backToTop_pos dyn r.2.1 chunk ww settle h1 h2 t u2 t2 hB]
                    · rw [hFti, hRti]; simpa using hleL
                    · rw [hFti, hFtp, hRti, hRtp]; exact heqL (by simp)
                    · intro pr hpr
                      rw [hFwl, hRwl] at hpr
                      exact hgwL hgwB pr hpr
                    · intro c hc m hm
                      rw [hFal, hRal] at hm
                      refine hgaL c hc ?_ m hm
                      intro m2 hm2
                      simp only [htaB, htaA] at hm2
                      simp [initSt] at hm2
                    · show t5.fallbackShot = false
                      unfold finishPhase at hF
                      rw [run_bind_ok (rfl : getS t4 = .ok t4 t4)] at hF
                      rw [if_pos (by simp [hne])] at hF
                      rcases pShotToPath_run dyn t4 with hs | hs
                      · rw [run_bind_err hs] at hF
                        cases hF
                        exact hforig
                      · rw [run_bind_ok hs] at hF
                        obtain ⟨a6, t6, h6⟩ := nf_ok
                          (nf_bind (nf_tryIgnore (pClearMarks dyn)) (fun _ => nf_pure path))
                          {bump t4 with fallbackShot := true}
                        rw [h6] at hF
                        cases hF
                | ok v5 t5 =>
                    rw [hF, stateOf_ok] at hfin
                    simp only [CapSt.obsv4, Prod.mk.injEq] at hfin
                    obtain ⟨hFti, hFtp, -, hFwl, hFal, -⟩ := hfin
                    rw [stateOf_ok]
                    refine ⟨?_, ?_, ?_, ?_, ?_, ?_, ?_⟩
                    · rw [hFtp, hRtp]; exact hchainL
                    · intro h1 h2
                      rw [hFtp, hRtp]
                      rcases hheadL with hh | hh
                      · left; exact hh
                      · right
                        rw [hh]
                        show some (statePos dyn t2) = some 0
                        rw [backToTop_pos dyn r.2.1 chunk ww settle h1 h2 t u2 t2 hB]
                    · rw [hFti, hRti]; simpa using hleL
                    · rw [hFti, hFtp, hRti, hRtp]; exact heqL (by simp)
                    · intro pr hpr
                      rw [hFwl, hRwl] at hpr
                      exact hgwL hgwB pr hpr
                    · intro c hc m hm
                      rw [hFal, hRal] at hm
                      refine hgaL c hc ?_ m hm
                      intro m2 hm2
                      simp only [htaB, htaA] at hm2
                      simp [initSt] at hm2
                    · exact ⟨finish_ret dyn r.2.1 path t4 v5 t5 hF,
                        fun hge1 => absurd hge1 hmaxT⟩
              · -- tiles were captured: the stitch branch runs
                obtain ⟨t5, hF, hFfb, hFsv, hFtp, hFti⟩ :=
                  finish_nonempty dyn r.2.1 path t4 hne
                rw [hF, stateOf_ok]
                have hfin := pres_obsv4_finishPhase dyn r.2.1 path t4
                rw [hF, stateOf_ok] at hfin
                simp only [CapSt.obsv4, Prod.mk.injEq] at hfin
                obtain ⟨-, -, -, hFwl, hFal, -⟩ := hfin
                refine ⟨?_, ?_, ?_, ?_, ?_, ?_, ?_⟩
                · rw [hFtp, hRtp]; exact hchainL
                · intro h1 h2
                  rw [hFtp, hRtp]
                  rcases hheadL with hh | hh
                  · left; exact hh
                  · right
                    rw [hh]
                    show some (statePos dyn t2) = some 0
                    rw [backToTop_pos dyn r.2.1 chunk ww settle h1 h2 t u2 t2 hB]
                · rw [hFti, hRti]; simpa using hleL
                · rw [hFti, hFtp, hRti, hRtp]; exact heqL (by simp)
                · intro pr hpr
                  rw [hFwl, hRwl] at hpr
                  exact hgwL hgwB pr hpr
                · intro c hc m hm
                  rw [hFal, hRal] at hm
                  refine hgaL c hc ?_ m hm
                  intro m2 hm2
                  simp only [htaB, htaA] at hm2
                  simp [initSt] at hm2
                · refine ⟨finish_ret dyn r.2.1 path t4 path t5 hF, fun hge1 => ⟨?_, ?_⟩⟩
                  · rw [hFti]; exact hne
                  · rw [hFfb, hRfb, hfrL.1]
                    show t2.fallbackShot = false
                    rw [hfbB, hfbA]
                    rfl

/-- Under a failure-free schedule the capture returns the output path
and every stabilization side effect is undone: fixed/sticky elements
re-shown, the animation style removed, outer overlays restored, and the
scroll-root marker cleared. -/
theorem capture_noFail (dyn : Dyn π) (p : π) (path : ρ) (settle : ℕ) (chunk : ℤ)
    (maxT : ℤ) (ww : ℕ) (hnf : ∀ n, dyn.fails n = false) :
    ∃ t, runCapture dyn p path settle chunk maxT ww = .ok path t ∧
      t.fixedHidden = false ∧ t.noAnim = false ∧ t.overlayHidden = false ∧
      t.marked = false := by
  unfold runCapture captureFullPageWheel
  obtain ⟨r, t1, hA⟩ := nf_ok (nf_setupPhase settle chunk ww hnf) (initSt p)
  rw [run_bind_ok hA]
  have hov1 : r.2.2 = false → t1.overlayHidden = false := by
    intro hf
    rw [setupPhase_overlay dyn settle chunk ww (initSt p) r t1 hA hf]
    rfl
  obtain ⟨u2, t2, hB⟩ := nf_ok (nf_backToTop r.2.1 chunk ww settle hnf) t1
  rw [run_bind_ok hB]
  have hov2 : t2.overlayHidden = t1.overlayHidden := by
    have hp := pres_obsv_backToTop dyn r.2.1 chunk ww settle t1
    rw [hB, stateOf_ok] at hp
    simp only [CapSt.obsv, Prod.mk.injEq] at hp
    tauto
  rw [run_bind_ok (rfl : resetTiles t2 =
    .ok () {t2 with tiles := [], tilePositions := []})]
  obtain ⟨u3, t3, hL⟩ := nf_ok (nf_tileLoop r.2.1 chunk ww settle hnf (max 0 maxT).toNat)
    {t2 with tiles := [], tilePositions := []}
  rw [run_bind_ok hL]
  have hov3 : t3.overlayHidden = t2.overlayHidden := by
    obtain ⟨hfr, -⟩ := tileLoop_spec dyn r.2.1 chunk ww settle (max 0 maxT).toNat
      {t2 with tiles := [], tilePositions := []}
    rw [hL, stateOf_ok] at hfr
    exact hfr.2.2
  obtain ⟨t4, hR, hfx4, hna4, hov4, hmk4⟩ := restore_flags hnf r.2.2 t3
  rw [run_bind_ok hR]
  have hov4' : t4.overlayHidden = false := by
    rw [hov4]
    cases hb : r.2.2 with
    | true => rw [if_pos rfl]
    | false =>
        rw [if_neg (by simp)]
        rw [hov3, hov2]
        exact hov1 hb
  have hflags : ∀ t5 : CapSt π, t5.obsv4 = t4.obsv4 →
      t5.fixedHidden = false ∧ t5.noAnim = false ∧ t5.overlayHidden = false := by
    intro t5 h
    simp only [CapSt.obsv4, Prod.mk.injEq] at h
    obtain ⟨-, -, -, -, -, hfx, hna, hov⟩ := h
    exact ⟨hfx.trans hfx4, hna.trans hna4, hov.trans hov4'⟩
  by_cases hne : t4.tiles = []
  · obtain ⟨t5, hF, -, -, hmk5⟩ := finish_empty hnf r.2.1 path t4 hne
    have hp := pres_obsv4_finishPhase dyn r.2.1 path t4
    rw [hF, stateOf_ok] at hp
    obtain ⟨hfx, hna, hov⟩ := hflags t5 hp
    exact ⟨t5, hF, hfx, hna, hov, hmk5⟩
  · obtain ⟨t5, hF, hmk5⟩ := finish_nonempty_marked hnf r.2.1 path t4 hne
    have hp := pres_obsv4_finishPhase dyn r.2.1 path t4
    rw [hF, stateOf_ok] at hp
    obtain ⟨hfx, hna, hov⟩ := hflags t5 hp
    exact ⟨t5, hF, hfx, hna, hov, hmk5⟩

/-! ## Stitcher lemmas -/

/-- The crop record of one stitch-loop iteration has the overlap-formula
top crop. -/
theorem stitchStep_cropTop (scale : ℚ) (vh contentH stitchH : ℤ)
    (prev : Option ℤ) (npy y : ℤ) (img : Img) :
    (stitchStep scale vh contentH stitchH prev npy y img).1.cropTop =
      cropTopOf scale vh prev y := by
  unfold stitchStep
  split
  · rfl
  · split <;> rfl

/-- The crop-top value the stitch loop computes for the `i`-th remaining
pair given the previous pair's position; mirrors src lines 440-444
index-wise (used to state `stitchLoop_char`). -/
def cropFormula (scale : ℚ) (vh : ℤ) : Option ℤ → List (ℤ × Img) → ℕ → ℤ
  | _, [], _ => 0
  | prev, (y, _) :: _, 0 => cropTopOf scale vh prev y
  | _, (y, _) :: rest, i + 1 => cropFormula scale vh (some y) rest i

/-- Characterization of the stitch loop's crop records: one per input
pair, accumulated after `acc`, with `cropTop` given by `cropFormula`. -/
theorem stitchLoop_char (scale : ℚ) (vh contentH stitchH : ℤ) :
    ∀ (l : List (ℤ × Img)) (prev : Option ℤ) (npy : ℤ) (acc : List CropRec),
      ((stitchLoop scale vh contentH stitchH l prev npy acc).1).length =
        acc.length + l.length ∧
      (∀ j, j < acc.length →
        ((stitchLoop scale vh contentH stitchH l prev npy acc).1).getD j default =
          acc.getD j default) ∧
      (∀ i, i < l.length →
        (((stitchLoop scale vh contentH stitchH l prev npy acc).1).getD
          (acc.length + i) default).cropTop = cropFormula scale vh prev l i) := by
  intro l
  induction l with
  | nil =>
      intro prev npy acc
      exact ⟨by simp [stitchLoop], fun j hj => rfl, fun i hi => absurd hi (by simp)⟩
  | cons hd rest ih =>
      intro prev npy acc
      obtain ⟨y, img⟩ := hd
      simp only [stitchLoop]
      obtain ⟨ihL, ihP, ihC⟩ := ih (some y)
        (stitchStep scale vh contentH stitchH prev npy y img).2
        (acc ++ [(stitchStep scale vh contentH stitchH prev npy y img).1])
      refine ⟨?_, ?_, ?_⟩
      · rw [ihL]
        simp
        omega
      · intro j hj
        rw [ihP j (by simp; omega)]
        exact List.getD_append _ _ _ _ (by omega)
      · intro i hi
        cases i with
        | zero =>
            have hlen : acc.length <
              (acc ++ [(stitchStep scale vh contentH stitchH prev npy y img).1]).length := by
              simp
            rw [Nat.add_zero, ihP acc.length hlen,
              List.getD_append_right _ _ _ _ (le_refl _)]
            simp only [Nat.sub_self, List.getD_cons_zero]
            rw [stitchStep_cropTop]
            rfl
        | succ i2 =>
            have harith : acc.length + (i2 + 1) =
                (acc ++ [(stitchStep scale vh contentH stitchH prev npy y img).1]).length + i2 := by
              simp
              omega
            rw [harith, ihC i2 (by simpa using Nat.lt_of_succ_lt_succ hi)]
            rfl

theorem cropFormula_getD (scale : ℚ) (vh : ℤ) :
    ∀ (l : List (ℤ × Img)) (i : ℕ) (prev : Option ℤ), i + 1 < l.length →
      cropFormula scale vh prev l (i + 1) =
        pyRound (((max 0 (((l.getD i (0, default)).1 + vh) -
          (l.getD (i + 1) (0, default)).1) : ℤ) : ℚ) * scale) := by
  intro l
  induction l with
  | nil =>
      intro i prev h
      simp at h
  | cons hd rest ih =>
      intro i prev h
      obtain ⟨y, img⟩ := hd
      cases i with
      | zero =>
          cases rest with
          | nil => simp at h
          | cons hd2 rest2 =>
              obtain ⟨y2, img2⟩ := hd2
              show cropTopOf scale vh (some y) y2 = _
              rfl
      | succ i2 =>
          show cropFormula scale vh (some y) rest (i2 + 1) = _
          rw [ih i2 (some y) (by simpa using Nat.lt_of_succ_lt_succ h)]
          rfl

theorem zip_getD_fst :
    ∀ (l1 : List ℤ) (l2 : List Img) (j : ℕ), j < l1.length →
      l1.length = l2.length →
      ((l1.zip l2).getD j (0, default)).1 = l1.getD j 0 := by
  intro l1
  induction l1 with
  | nil =>
      intro l2 j h _
      simp at h
  | cons a l1' ih =>
      intro l2 j hj hl
      cases l2 with
      | nil => simp at hl
      | cons b l2' =>
          cases j with
          | zero => rfl
          | succ j' =>
              show ((l1'.zip l2').getD j' (0, default)).1 = l1'.getD j' 0
              exact ih l2' j' (by simpa using Nat.lt_of_succ_lt_succ hj)
                (by simpa using hl)

/-! ## Selection-fold lemmas -/

theorem selectFold_spec :
    ∀ (l : List (ObsEntry × ObsEntry)) (acc : ℤ × Option BestEntry), 0 ≤ acc.1 →
      acc.1 ≤ (l.foldl selectStep acc).1 ∧
      (∀ pr ∈ l, ∀ d, deltaOf pr = some d → d ≤ (l.foldl selectStep acc).1) ∧
      (l.foldl selectStep acc = acc ∨
        (0 < (l.foldl selectStep acc).1 ∧ ∃ pr ∈ l, ∃ b, pr.1 = some b ∧
          (l.foldl selectStep acc).2 = some (mkBest b) ∧
          deltaOf pr = some (l.foldl selectStep acc).1)) := by
  intro l
  induction l with
  | nil =>
      intro acc h0
      exact ⟨le_refl _, by simp, Or.inl rfl⟩
  | cons pr rest ih =>
      intro acc h0
      obtain ⟨e1, e2⟩ := pr
      rcases e1 with _ | b
      · -- first entry is not a dict: the pair is skipped
        have hstep : selectStep acc (none, e2) = acc := rfl
        simp only [List.foldl_cons, hstep]
        obtain ⟨ih1, ih2, ih3⟩ := ih acc h0
        refine ⟨ih1, ?_, ?_⟩
        · intro pr2 hpr2 d hd
          rcases List.mem_cons.mp hpr2 with hh | hh
          · subst hh
            cases hd
          · exact ih2 pr2 hh d hd
        · rcases ih3 with hh | ⟨hgt, pr2, hm, b2, hb2, hbest, hdelta⟩
          · exact Or.inl hh
          · exact Or.inr ⟨hgt, pr2, List.mem_cons_of_mem _ hm, b2, hb2, hbest, hdelta⟩
      · rcases e2 with _ | a
        · have hstep : selectStep acc (some b, none) = acc := rfl
          simp only [List.foldl_cons, hstep]
          obtain ⟨ih1, ih2, ih3⟩ := ih acc h0
          refine ⟨ih1, ?_, ?_⟩
          · intro pr2 hpr2 d hd
            rcases List.mem_cons.mp hpr2 with hh | hh
            · subst hh
              cases hd
            · exact ih2 pr2 hh d hd
          · rcases ih3 with hh | ⟨hgt, pr2, hm, b2, hb2, hbest, hdelta⟩
            · exact Or.inl hh
            · exact Or.inr ⟨hgt, pr2, List.mem_cons_of_mem _ hm, b2, hb2, hbest, hdelta⟩
        · -- both entries are dicts
          have hdel : deltaOf (some b, some a) =
              some (pyInt (a.scrollTop.getD 0) - pyInt (b.scrollTop.getD 0)) := rfl
          by_cases hcond : pyInt (a.scrollTop.getD 0) > pyInt (b.scrollTop.getD 0) ∧
              pyInt (a.scrollTop.getD 0) - pyInt (b.scrollTop.getD 0) > acc.1
          · have hstep : selectStep acc (some b, some a) =
                (pyInt (a.scrollTop.getD 0) - pyInt (b.scrollTop.getD 0),
                 some (mkBest b)) := by
              show (if _ then _ else _) = _
              rw [if_pos hcond]
            simp only [List.foldl_cons, hstep]
            have h0a : (0 : ℤ) ≤ ((pyInt (a.scrollTop.getD 0) -
                pyInt (b.scrollTop.getD 0), some (mkBest b)) :
                ℤ × Option BestEntry).1 := by
              show (0 : ℤ) ≤ pyInt (a.scrollTop.getD 0) - pyInt (b.scrollTop.getD 0)
              omega
            obtain ⟨ih1, ih2, ih3⟩ := ih (pyInt (a.scrollTop.getD 0) -
              pyInt (b.scrollTop.getD 0), some (mkBest b)) h0a
            refine ⟨by omega, ?_, ?_⟩
            · intro pr2 hpr2 d hd
              rcases List.mem_cons.mp hpr2 with hh | hh
              · subst hh
                rw [hdel] at hd
                cases hd
                exact ih1
              · exact ih2 pr2 hh d hd
            · rcases ih3 with hh | ⟨hgt, pr2, hm, b2, hb2, hbest, hdelta⟩
              · rw [hh]
                exact Or.inr ⟨by omega, (some b, some a), List.mem_cons_self _ _,
                  b, rfl, rfl, hdel⟩
              · exact Or.inr ⟨hgt, pr2, List.mem_cons_of_mem _ hm, b2, hb2, hbest, hdelta⟩
          · have hstep : selectStep acc (some b, some a) = acc := by
              show (if _ then _ else _) = _
              rw [if_neg hcond]
            simp only [List.foldl_cons, hstep]
            obtain ⟨ih1, ih2, ih3⟩ := ih acc h0
            refine ⟨ih1, ?_, ?_⟩
            · intro pr2 hpr2 d hd
              rcases List.mem_cons.mp hpr2 with hh | hh
              · subst hh
                rw [hdel] at hd
                cases hd
                rcases not_and_or.mp hcond with hh2 | hh2 <;> omega
              · exact ih2 pr2 hh d hd
            · rcases ih3 with hh | ⟨hgt, pr2, hm, b2, hb2, hbest, hdelta⟩
              · exact Or.inl hh
              · exact Or.inr ⟨hgt, pr2, List.mem_cons_of_mem _ hm, b2, hb2, hbest, hdelta⟩

/-! ## Concrete page models for witnesses and counterexamples -/

/-- The string `"element"`, the `type` tag of a non-window candidate. -/
def elementTy : String := "element"

/-- A hostile page that ignores every scroll command and wheel event and
always reports scroll position 100 with maximum 1000. -/
def stuckPage : Dyn Unit where
  fails := fun _ => false
  dims := fun _ => (some 1280, some 720)
  iframeDetect := fun _ => false
  findAndMark := fun _ => ()
  findMarks := fun _ => false
  jsScrollTo := fun _ _ => ()
  waitMs := fun _ _ => ()
  mouseMove := fun _ => ()
  wheel := fun _ _ => ()
  scrollStateRaw := fun _ => .dict (some 100) (some 1000) false
  scrollableStates := fun _ => some []
  markByObs := fun _ _ => ()
  obsElFound := fun _ _ => false
  clearMarks := fun _ => ()
  disableAnim := fun _ => ()
  hideFixed := fun _ => ()
  showFixed := fun _ => ()
  removeAnimStyle := fun _ => ()
  hideOuterOverlays := fun _ => ()
  restoreOuterOverlays := fun _ => ()
  shot := fun _ => ⟨800, 900⟩

/-- The stuck page with every browser round-trip from the 500th on
raising (the page crashes mid-capture, during the back-to-top phase). -/
def failingPage : Dyn Unit :=
  { stuckPage with fails := fun n => decide (500 ≤ n) }

/-- A page that honors JS scrolls exactly: the page state is its scroll
position; wheel events are ignored, waits change nothing, and the
scroll-state query reports the position with maximum 600. -/
def smoothPage : Dyn ℤ where
  fails := fun _ => false
  dims := fun _ => (some 1280, some 720)
  iframeDetect := fun _ => false
  findAndMark := fun p => p
  findMarks := fun _ => false
  jsScrollTo := fun y _ => y
  waitMs := fun _ p => p
  mouseMove := fun p => p
  wheel := fun _ p => p
  scrollStateRaw := fun p => .dict (some (p : ℚ)) (some 600) false
  scrollableStates := fun _ => some []
  markByObs := fun _ p => p
  obsElFound := fun _ _ => false
  clearMarks := fun p => p
  disableAnim := fun p => p
  hideFixed := fun p => p
  showFixed := fun p => p
  removeAnimStyle := fun p => p
  hideOuterOverlays := fun p => p
  restoreOuterOverlays := fun p => p
  shot := fun _ => ⟨800, 720⟩

set_option maxRecDepth 1000000

/-! ## The claims -/

/-- Claim C1 (confirmed): for every capture that produces at least one
tile, the stitched output image's pixel height equals
`round(scaleFactor * (lastTile.cssOffset + viewportHeightCss))`, where
`scaleFactor` is the first tile's bitmap pixel height divided by the CSS
viewport height (src lines 424-434). -/
theorem c1_stitch_height (positions : List ℤ) (tiles : List Img) (vh lastPos : ℤ)
    (img0 : Img) (out : StitchOut) (hvh : 0 < vh)
    (h0 : tiles.head? = some img0) (hL : positions.getLast? = some lastPos)
    (h : stitchTiles positions tiles vh = some out) :
    out.height = pyRound ((img0.height : ℚ) / (vh : ℚ) * ((lastPos + vh : ℤ) : ℚ)) := by
  unfold stitchTiles at h
  by_cases hl : positions.length = tiles.length
  · rw [if_pos hl, h0, hL] at h
    injection h with h2
    subst h2
    show pyRound (((lastPos + vh : ℤ) : ℚ) *
      (if vh > 0 then (img0.height : ℚ) / (vh : ℚ) else 1)) = _
    rw [if_pos hvh, mul_comm]
  · rw [if_neg hl] at h
    exact Option.noConfusion h

/-- Claim C1 witness: three 1000px-tall tiles at CSS offsets 0, 600, 1200
with an 800px CSS viewport stitch to height round(1.25 * 2000) = 2500. -/
theorem c1_stitch_height_witness :
    ∃ out, stitchTiles [0, 600, 1200] [⟨800, 1000⟩, ⟨800, 1000⟩, ⟨800, 1000⟩] 800 =
        some out ∧
      out.height = pyRound (((⟨800, 1000⟩ : Img).height : ℚ) / ((800 : ℤ) : ℚ) *
        ((1200 + 800 : ℤ) : ℚ)) := by
  refine ⟨_, rfl, ?_⟩
  exact c1_stitch_height [0, 600, 1200] [⟨800, 1000⟩, ⟨800, 1000⟩, ⟨800, 1000⟩]
    800 1200 ⟨800, 1000⟩ _ (by decide) rfl rfl rfl

/-- Claim C2 (confirmed): in the stitcher, the first tile has zero pixels
cropped from its top, and every later tile i+1 has
`round(scaleFactor * max(0, (tile[i].cssOffset + viewportHeightCss) -
tile[i+1].cssOffset))` pixels cropped from its top — the CSS-space overlap
scaled by `scaleFactor`, never a fixed pixel constant (src lines 437-448). -/
theorem c2_crop_overlap (positions : List ℤ) (tiles : List Img) (vh : ℤ)
    (img0 : Img) (out : StitchOut) (hvh : 0 < vh) (h0 : tiles.head? = some img0)
    (h : stitchTiles positions tiles vh = some out) :
    (out.crops.getD 0 default).cropTop = 0 ∧
    ∀ i, i + 1 < positions.length →
      (out.crops.getD (i + 1) default).cropTop =
        pyRound ((img0.height : ℚ) / (vh : ℚ) *
          ((max 0 ((positions.getD i 0 + vh) - positions.getD (i + 1) 0) : ℤ) : ℚ)) := by
  unfold stitchTiles at h
  by_cases hl : positions.length = tiles.length
  case pos =>
    rw [if_pos hl, h0] at h
    cases hL : positions.getLast? with
    | none => rw [hL] at h; exact Option.noConfusion h
    | some lastPos =>
        rw [hL] at h
        injection h with h2
        subst h2
        have hpos : positions ≠ [] := by
          intro he; rw [he] at hL; cases hL
        have hpos' : 0 < positions.length := List.length_pos.mpr hpos
        have hzlen : (positions.zip tiles).length = positions.length := by
          rw [List.length_zip, hl, min_self]
        show ((stitchLoop (if vh > 0 then (img0.height : ℚ) / (vh : ℚ) else 1)
          vh _ _ _ none 0 []).1.getD 0 default).cropTop = 0 ∧ _
        rw [if_pos hvh]
        obtain ⟨hlen, hpre, hform⟩ :=
          stitchLoop_char ((img0.height : ℚ) / (vh : ℚ)) vh (lastPos + vh)
            (pyRound (((lastPos + vh : ℤ) : ℚ) * ((img0.height : ℚ) / (vh : ℚ))))
            (positions.zip tiles) none 0 []
        have hzero : ∀ (l : List (ℤ × Img)), l ≠ [] →
            cropFormula ((img0.height : ℚ) / (vh : ℚ)) vh none l 0 = 0 := by
          intro l hl'
          cases l with
          | nil => exact absurd rfl hl'
          | cons hd tl => obtain ⟨y, im⟩ := hd; rfl
        constructor
        · have h1 := hform 0 (by rw [hzlen]; exact hpos')
          rw [hzero _ (by intro he; rw [he] at hzlen; simp at hzlen; omega)] at h1
          simpa using h1
        · intro i hi
          have h2 := hform (i + 1) (by rw [hzlen]; exact hi)
          have h3 := cropFormula_getD ((img0.height : ℚ) / (vh : ℚ)) vh
            (positions.zip tiles) i none (by rw [hzlen]; exact hi)
          rw [h3] at h2
          rw [zip_getD_fst positions tiles i (by omega) hl,
            zip_getD_fst positions tiles (i + 1) hi hl] at h2
          rw [mul_comm ((img0.height : ℚ) / (vh : ℚ))]
          simpa using h2
  case neg =>
    rw [if_neg hl] at h
    exact Option.noConfusion h

/-- Claim C2 witness: the spec's scenario — scaleFactor 1.25, tiles at CSS
offsets 0, 600, 1200, viewport 800 — gives crop-top 0 for the first tile
and round(1.25 * 200) = 250 for the second, computed from the CSS-space
overlap, not a fixed constant. -/
theorem c2_crop_overlap_witness :
    ∃ out, stitchTiles [0, 600, 1200] [⟨800, 1000⟩, ⟨800, 1000⟩, ⟨800, 1000⟩] 800 =
        some out ∧
      (out.crops.getD 0 default).cropTop = 0 ∧
      (out.crops.getD 1 default).cropTop = 250 := by
  refine ⟨_, rfl, ?_, ?_⟩
  · exact (c2_crop_overlap [0, 600, 1200] [⟨800, 1000⟩, ⟨800, 1000⟩, ⟨800, 1000⟩]
      800 ⟨800, 1000⟩ _ (by decide) rfl rfl).1
  · exact ((c2_crop_overlap [0, 600, 1200] [⟨800, 1000⟩, ⟨800, 1000⟩, ⟨800, 1000⟩]
      800 ⟨800, 1000⟩ _ (by decide) rfl rfl).2 0 (by decide)).trans
      (by norm_num [pyRound])

/-- Claim C8 counterexample: the answer `{"position": null}` is not a
well-formed state object, yet it is a nonempty (hence truthy) dict, so
it passes the `not s or not isinstance(s, dict)` guard and reaches
`int(None)`, which raises: `get_state` propagates the type error on
this malformed value instead of returning the safe default (0, 720). -/
theorem c8_counterexample :
    getStateRaw (.dict (some (.bad false)) none false) 720 = none ∧
    ¬ getStateRaw (.dict (some (.bad false)) none false) 720 = some (0, 720) := by
  decide

/-- Claim C8 (corrected): the defensive guard of `get_state` (src lines
295-301) covers only the falsy and non-dict answers — for exactly those
the reader returns the safe default (0, viewportHeight) — while the
reader raises precisely on the remaining malformed answers: a non-falsy
dict one of whose present `position`/`max` values `int()` cannot
convert. Such a malformed state object propagates the `int()` type
error, contrary to the original claim (see the counterexample). -/
theorem c8_safe_default (v : SRawVal) (vh : ℤ) :
    (v.guarded → getStateRaw v vh = some (0, vh)) ∧
    (getStateRaw v vh = none ↔ ¬ v.guarded ∧ v.hasBadField) := by
  cases v with
  | nonDict t =>
      exact ⟨fun _ => rfl, by simp [getStateRaw, SRawVal.hasBadField]⟩
  | dict p m other =>
      constructor
      · intro hg
        obtain ⟨hp, hm, ho⟩ := hg
        subst hp; subst hm; subst ho
        rfl
      · cases p with
        | none =>
            cases m with
            | none =>
                cases other <;>
                  simp [getStateRaw, SRawVal.guarded, SRawVal.hasBadField, intOf]
            | some mv =>
                cases mv <;>
                  simp [getStateRaw, SRawVal.guarded, SRawVal.hasBadField, intOf]
        | some pv =>
            cases pv with
            | num q =>
                cases m with
                | none =>
                    simp [getStateRaw, SRawVal.guarded, SRawVal.hasBadField, intOf]
                | some mv =>
                    cases mv <;>
                      simp [getStateRaw, SRawVal.guarded, SRawVal.hasBadField, intOf]
            | bad b =>
                cases m with
                | none =>
                    simp [getStateRaw, SRawVal.guarded, SRawVal.hasBadField, intOf]
                | some mv =>
                    cases mv <;>
                      simp [getStateRaw, SRawVal.guarded, SRawVal.hasBadField, intOf]

/-- Claim C8 witness: Python `None` (a falsy non-dict) and the empty
dict are caught by the guard and both read as the safe default (0, 720)
for a 720px viewport. -/
theorem c8_safe_default_witness :
    getStateRaw (.nonDict false) 720 = some (0, 720) ∧
    getStateRaw (.dict none none false) 720 = some (0, 720) :=
  ⟨(c8_safe_default (.nonDict false) 720).1 trivial,
   (c8_safe_default (.dict none none false) 720).1 ⟨rfl, rfl, rfl⟩⟩

/-- Claim C3 counterexample: on a page that ignores every scroll command
and reports a fixed position of 100, the capture records tile positions
[100] — non-decreasing, but the first tile's cssOffset is 100, not 0.
The back-to-top phase (src lines 335-349) can only retry, never force
the position to 0, so the "first tile's cssOffset equals 0" half of the
claim fails. -/
theorem c3_counterexample :
    ((runCapture stuckPage () (0 : ℕ) 200 200 2 80).stateOf).tilePositions = [100] ∧
    ¬ ((runCapture stuckPage () (0 : ℕ) 200 200 2 80).stateOf).tilePositions.head? =
        some 0 := by
  have h : ((runCapture stuckPage () (0 : ℕ) 200 200 2 80).stateOf).tilePositions =
      [100] := by decide
  exact ⟨h, by rw [h]; decide⟩

/-- Claim C3 (corrected): the monotonicity half holds for every capture —
recorded tile cssOffsets are non-decreasing — and the first-tile-at-0
half holds for every page that honors `window.scrollTo(0, 0)` (and whose
reported position is unchanged by waiting): then the first recorded tile
offset is 0 whenever any tile is recorded. On a page that ignores
scrolls the first offset can be nonzero (see the counterexample). -/
theorem c3_monotone_first_tile (dyn : Dyn π) (p : π) (path : ρ) (settle : ℕ)
    (chunk : ℤ) (maxT : ℤ) (ww : ℕ)
    (h1 : ∀ q, pagePos dyn (dyn.jsScrollTo 0 q) = 0)
    (h2 : ∀ ms q, pagePos dyn (dyn.waitMs ms q) = pagePos dyn q) :
    List.Chain' (· ≤ ·)
      ((runCapture dyn p path settle chunk maxT ww).stateOf).tilePositions ∧
    (((runCapture dyn p path settle chunk maxT ww).stateOf).tilePositions = [] ∨
     ((runCapture dyn p path settle chunk maxT ww).stateOf).tilePositions.head? =
       some 0) :=
  ⟨(capture_spec dyn p path settle chunk maxT ww).1,
   (capture_spec dyn p path settle chunk maxT ww).2.1 h1 h2⟩

/-- Claim C3 witness: a page that honors JS scrolls records
non-decreasing positions starting at 0. -/
theorem c3_monotone_first_tile_witness :
    List.Chain' (· ≤ ·)
      ((runCapture smoothPage 0 (0 : ℕ) 200 200 2 80).stateOf).tilePositions ∧
    (((runCapture smoothPage 0 (0 : ℕ) 200 200 2 80).stateOf).tilePositions = [] ∨
     ((runCapture smoothPage 0 (0 : ℕ) 200 200 2 80).stateOf).tilePositions.head? =
       some 0) :=
  c3_monotone_first_tile smoothPage 0 0 200 200 2 80 (fun _ => rfl) (fun _ _ => rfl)

/-- Claim C4 counterexample: on a page whose browser connection dies from
round-trip 500 on, the capture raises out of the back-to-top phase and
returns with the injected no-animation style still present: the restore
block (src lines 392-409) is straight-line code after the tile loop, not
a `finally`, so a raise between stabilization and restore skips it and
the stabilization side effects persist. -/
theorem c4_counterexample :
    (runCapture failingPage () (0 : ℕ) 200 200 2 80).isOkB = false ∧
    ((runCapture failingPage () (0 : ℕ) 200 200 2 80).stateOf).noAnim = true := by
  decide

/-- Claim C4 (corrected): the restoration steps themselves never raise —
each is wrapped in a swallowed `try` — and on every run in which no
browser round-trip fails the capture returns normally with every
stabilization side effect undone: fixed elements re-shown, the
animation-disabling style removed, outer overlays restored and the
scroll-root marker cleared. The unconditional half of the original claim
("whether the capture succeeds or fails") is false, because the restore
block is not in a `finally` (see the counterexample). -/
theorem c4_restore (dyn : Dyn π) (p : π) (path : ρ) (settle : ℕ) (chunk : ℤ)
    (maxT : ℤ) (ww : ℕ) (hnf : ∀ n, dyn.fails n = false) :
    (∀ (ifr : Bool) (s : CapSt π), (restorePhase dyn ifr s).IsOk) ∧
    ∃ t, runCapture dyn p path settle chunk maxT ww = .ok path t ∧
      t.fixedHidden = false ∧ t.noAnim = false ∧ t.overlayHidden = false ∧
      t.marked = false :=
  ⟨fun ifr s => nf_restorePhase dyn ifr s,
   capture_noFail dyn p path settle chunk maxT ww hnf⟩

/-- Claim C4 witness: on the stuck page with a failure-free schedule the
restore phase returns normally and the capture ends with all four DOM
flags cleared. -/
theorem c4_restore_witness :
    (restorePhase stuckPage true (initSt ())).IsOk ∧
    ∃ t, runCapture stuckPage () (0 : ℕ) 200 200 2 80 = .ok 0 t ∧
      t.fixedHidden = false ∧ t.noAnim = false ∧ t.overlayHidden = false ∧
      t.marked = false :=
  ⟨(c4_restore stuckPage () (0 : ℕ) 200 200 2 80 (fun _ => rfl)).1 true (initSt ()),
   (c4_restore stuckPage () (0 : ℕ) 200 200 2 80 (fun _ => rfl)).2⟩

/-- Claim C5 (confirmed): if the tile loop produced zero tiles, the
finish block takes a single unscrolled screenshot, writes it to the
output path and returns that path instead of failing (src lines
411-419); with at least one tile no fallback screenshot is taken and the
tiles are stitched instead — the zero-tiles case is the only degraded
output path. -/
theorem c5_zero_tile_fallback (dyn : Dyn π) (vh : ℤ) (path : ρ) (s : CapSt π)
    (hnf : ∀ n, dyn.fails n = false) :
    (s.tiles = [] → ∃ t, finishPhase dyn vh path s = .ok path t ∧
      t.fallbackShot = true ∧ t.savedStitch = s.savedStitch) ∧
    (s.tiles ≠ [] → ∃ t, finishPhase dyn vh path s = .ok path t ∧
      t.fallbackShot = s.fallbackShot ∧
      t.savedStitch = stitchTiles s.tilePositions s.tiles vh) := by
  constructor
  · intro he
    obtain ⟨t, hF, hfb, hsv, -⟩ := finish_empty hnf vh path s he
    exact ⟨t, hF, hfb, hsv⟩
  · intro hne
    obtain ⟨t, hF, hfb, hsv, -, -⟩ := finish_nonempty dyn vh path s hne
    exact ⟨t, hF, hfb, hsv⟩

/-- Claim C5 witness: from the initial state (no tiles) the finish phase
returns the path with the fallback screenshot taken. -/
theorem c5_zero_tile_fallback_witness :
    ∃ t, finishPhase stuckPage 720 (0 : ℕ) (initSt ()) = .ok 0 t ∧
      t.fallbackShot = true ∧ t.savedStitch = (initSt ()).savedStitch :=
  (c5_zero_tile_fallback stuckPage 720 0 (initSt ()) (fun _ => rfl)).1 rfl

/-- Claim C6 (confirmed): whenever some candidate's scroll offset
strictly advanced between the before and after probes, the behavioral
selection (src lines 268-279) returns a strictly positive best delta
that is an upper bound on every candidate's delta and is attained by
some candidate, whose before-entry builds the selected best entry; and
marking by that selection (src lines 288-293) overrides the geometric
provisional mark: it runs the mark-by-observation round-trip with the
selected entry, whose mark succeeds exactly for a found non-window
element. -/
theorem c6_behavioral_selection (before after : List ObsEntry)
    (hadv : ∃ pr ∈ before.zip after, 0 < (deltaOf pr).getD 0) :
    0 < (selectBest before after).1 ∧
    (∀ pr ∈ before.zip after, ∀ d, deltaOf pr = some d →
      d ≤ (selectBest before after).1) ∧
    (∃ pr ∈ before.zip after, ∃ b, pr.1 = some b ∧
      (selectBest before after).2 = some (mkBest b) ∧
      deltaOf pr = some (selectBest before after).1) ∧
    (∀ (γ : Type) (dyn : Dyn γ) (s : CapSt γ) (e : BestEntry),
      (selectBest before after).2 = some e → dyn.fails s.clock = false →
      ∃ t, applyBestMark dyn (selectBest before after).2 s = .ok () t ∧
        t.marked = ((e.ty ≠ windowTy : Bool) && dyn.obsElFound e s.page)) := by
  obtain ⟨pr0, hm0, hd0⟩ := hadv
  have hdelta : ∃ d, deltaOf pr0 = some d ∧ 0 < d := by
    cases hd : deltaOf pr0 with
    | none => rw [hd] at hd0; simp at hd0
    | some d => rw [hd] at hd0; simp at hd0; exact ⟨d, rfl, hd0⟩
  obtain ⟨d0, hd0s, hd0pos⟩ := hdelta
  obtain ⟨hmono, hub, hdisj⟩ :=
    selectFold_spec (before.zip after) (0, none) (by norm_num)
  have hself : selectBest before after =
      (before.zip after).foldl selectStep (0, none) := rfl
  rcases hdisj with heq | ⟨hgt, hex⟩
  · exfalso
    have hle := hub pr0 hm0 d0 hd0s
    rw [heq] at hle
    simp at hle
    omega
  · refine ⟨by rw [hself]; exact hgt, ?_, ?_, ?_⟩
    · intro pr hpr d hd
      rw [hself]
      exact hub pr hpr d hd
    · rw [hself]
      exact hex
    · intro γ dyn s e hsome hf
      rw [hsome]
      have hrun : pMarkByObs dyn e s = .ok ()
          {bump s with
            page := dyn.markByObs e s.page,
            marked := ((e.ty ≠ windowTy : Bool) && dyn.obsElFound e s.page)} := by
        unfold pMarkByObs prim
        simp [hf, bump]
      exact ⟨_, hrun, rfl⟩

/-- Observation probe before-snapshot used in the C6 witness: the window
at offset 0 and a scrollable element (index 2) at offset 10. -/
def beforeObs : List ObsEntry :=
  [some ⟨some windowTy, some 0, some 0⟩, some ⟨some elementTy, some 2, some 10⟩]

/-- Observation probe after-snapshot used in the C6 witness: the window
did not move, the element advanced to offset 310. -/
def afterObs : List ObsEntry :=
  [some ⟨some windowTy, some 0, some 0⟩, some ⟨some elementTy, some 2, some 310⟩]

/-- Claim C6 witness: with the window stuck and an element that advanced
by 300, the selection is strictly positive, picks the element entry, and
marking by it performs the override round-trip. -/
theorem c6_behavioral_selection_witness :
    0 < (selectBest beforeObs afterObs).1 ∧
    ∃ t, applyBestMark stuckPage (selectBest beforeObs afterObs).2 (initSt ()) =
        .ok () t ∧
      t.marked = (((⟨elementTy, 2⟩ : BestEntry).ty ≠ windowTy : Bool) &&
        stuckPage.obsElFound ⟨elementTy, 2⟩ (initSt ()).page) :=
  ⟨(c6_behavioral_selection beforeObs afterObs (by decide)).1,
   (c6_behavioral_selection beforeObs afterObs (by decide)).2.2.2 Unit stuckPage
     (initSt ()) ⟨elementTy, 2⟩ (by decide) rfl⟩

/-- Claim C7 (confirmed): the capture is a total function of the page
model — stated through its bounds: the tile count never exceeds the
max_tiles ceiling, every recorded wheel retry loop ran at most its
attempt ceiling (150/100/50 by call site), and on a page whose reported
position never changes every recorded advancing phase ended by the
15-attempt stall detection rather than looping or raising (src lines
354-390 and 153-197). -/
theorem c7_bounded_loops (dyn : Dyn π) (p : π) (path : ρ) (settle : ℕ)
    (chunk : ℤ) (maxT : ℤ) (ww : ℕ) :
    ((runCapture dyn p path settle chunk maxT ww).stateOf).tiles.length ≤
      (max 0 maxT).toNat ∧
    GoodWheel ((runCapture dyn p path settle chunk maxT ww).stateOf) ∧
    (∀ c, (∀ q, pagePos dyn q = c) →
      GoodAdv 15 ((runCapture dyn p path settle chunk maxT ww).stateOf)) :=
  ⟨(capture_spec dyn p path settle chunk maxT ww).2.2.1,
   (capture_spec dyn p path settle chunk maxT ww).2.2.2.2.1,
   (capture_spec dyn p path settle chunk maxT ww).2.2.2.2.2.1⟩

/-- Claim C7 witness: against the stuck page (constant reported position
100) the capture stops at 1 ≤ 2 tiles and every recorded advance loop
stalled out within 15 attempts. -/
theorem c7_bounded_loops_witness :
    ((runCapture stuckPage () (0 : ℕ) 200 200 2 80).stateOf).tiles.length ≤
      (max 0 (2 : ℤ)).toNat ∧
    GoodAdv 15 ((runCapture stuckPage () (0 : ℕ) 200 200 2 80).stateOf) :=
  ⟨(c7_bounded_loops stuckPage () 0 200 200 2 80).1,
   (c7_bounded_loops stuckPage () 0 200 200 2 80).2.2 100 (fun _ => rfl)⟩

/-- Claim C9 (confirmed): every target recorded by the tile loop obeys
targetPos = stepStart + viewportHeightCss - max(100, viewportHeightCss // 8)
(src lines 366-368), provided the targets recorded before entering the
loop already did. -/
theorem c9_advance_target (dyn : Dyn π) (vh chunk : ℤ) (ww settle fuel : ℕ)
    (s : CapSt π)
    (hinv : ∀ pr ∈ s.targets, pr.2 = pr.1 + vh - max 100 (Int.fdiv vh 8)) :
    ∀ pr ∈ ((tileLoop dyn vh chunk ww settle fuel s).stateOf).targets,
      pr.2 = pr.1 + vh - max 100 (Int.fdiv vh 8) :=
  (tileLoop_spec dyn vh chunk ww settle fuel s).2.2.2.2.2.1 hinv

/-- Claim C9 witness: one tile step on the stuck 720px-viewport page
records the target pair (100, 720) with 720 = 100 + 720 - max(100, 90). -/
theorem c9_advance_target_witness :
    ((100 : ℤ), (720 : ℤ)).2 =
      ((100 : ℤ), (720 : ℤ)).1 + 720 - max 100 (Int.fdiv 720 8) :=
  c9_advance_target stuckPage 720 200 80 200 1 (initSt ())
    (fun pr hpr => absurd hpr (by simp [initSt]))
    (100, 720) (by decide)

/-- Claim C10 (confirmed): the tile-loop body appends a tile and its
position before evaluating any exit condition (src lines 352-357), so
tiles and positions always end equally long, and with max_tiles ≥ 1 a
normal return carries at least one tile and the zero-tiles fallback (src
lines 411-412) is not taken; a raising run never set the fallback
either. -/
theorem c10_tiles_nonempty (dyn : Dyn π) (p : π) (path : ρ) (settle : ℕ)
    (chunk : ℤ) (maxT : ℤ) (ww : ℕ) (hmax : 1 ≤ maxT) :
    ((runCapture dyn p path settle chunk maxT ww).stateOf).tiles.length =
      ((runCapture dyn p path settle chunk maxT ww).stateOf).tilePositions.length ∧
    (match runCapture dyn p path settle chunk maxT ww with
     | .ok v t => v = path ∧ t.tiles ≠ [] ∧ t.fallbackShot = false
     | .err t => t.fallbackShot = false) := by
  obtain ⟨-, -, -, heq, -, -, hmatch⟩ := capture_spec dyn p path settle chunk maxT ww
  refine ⟨heq, ?_⟩
  cases hr : runCapture dyn p path settle chunk maxT ww with
  | ok v t =>
      rw [hr] at hmatch
      exact ⟨hmatch.1, (hmatch.2 hmax).1, (hmatch.2 hmax).2⟩
  | err t =>
      rw [hr] at hmatch
      exact hmatch

/-- Claim C10 witness: the default-like parameters (max_tiles = 2) on the
stuck page give equal list lengths and a normal return with tiles
present and no fallback. -/
theorem c10_tiles_nonempty_witness :
    ((runCapture stuckPage () (0 : ℕ) 200 200 2 80).stateOf).tiles.length =
      ((runCapture stuckPage () (0 : ℕ) 200 200 2 80).stateOf).tilePositions.length ∧
    (match runCapture stuckPage () (0 : ℕ) 200 200 2 80 with
     | .ok v t => v = 0 ∧ t.tiles ≠ [] ∧ t.fallbackShot = false
     | .err t => t.fallbackShot = false) :=
  c10_tiles_nonempty stuckPage () 0 200 200 2 80 (by omega)
